import Mathlib

/-!
Shallow embedding of the `formulate` HTML form encode/decode engine
(repository `cj123/formulate`), together with theorems settling the
specification claims.

The embedding follows the source files: `decode.go` (HTTPDecoder),
`encode.go` (HTMLEncoder and the Build* field builders), the current
`StructField`/show-condition file, `formElementName` (decoder-side key
stripping), and the `BoolNumber`/`CustomDecoder` declarations.

Modelling conventions:
  * `url.Values` (posted form data) is modelled as the flat list of posted
    `(key, value)` pairs; `Form.get` returns all values for a key in order,
    which is exactly what `url.Values[key]` holds after `ParseQuery`.
  * Go maps used as registries (show conditions, validators) are modelled
    as association lists with first-match lookup.
  * `time.Time` is modelled by its calendar fields (year, month, day, hour,
    minute, second) in UTC; locations and sub-second precision are elided.
  * Go `float64` is modelled as an exact decimal `mantissa × 10^(-fracLen)`
    (`Dec` below); IEEE rounding is elided.  No theorem below depends on
    the identification of distinct decimals denoting the same float.
  * A Go runtime panic (out-of-range indexing, contract violations) is a
    distinguished `Failure.goPanic` outcome, separate from returned errors.
-/

namespace Formulate

/-! ### Decimal digits: Go `strconv` number formatting and parsing -/

/-- Character for a single decimal digit (`0 ≤ d ≤ 9`). -/
def digitChr (d : Nat) : Char := Char.ofNat (48 + d)

/-- Decimal digit value of a character, `none` if it is not `0`..`9`. -/
def digitVal (c : Char) : Option Nat :=
  if 48 ≤ c.toNat ∧ c.toNat ≤ 57 then some (c.toNat - 48) else none

/-- Split a character list on a separator character (`strings.Split` with a
one-character separator, which is the only form the engine uses: `"."` and
`","`).  Structurally recursive so that the kernel can evaluate it. -/
def splitChar (sep : Char) : List Char → List (List Char)
  | [] => [[]]
  | c :: rest =>
    match splitChar sep rest with
    | [] => [[]]
    | s :: ss => if c = sep then [] :: s :: ss else (c :: s) :: ss

/-- `strings.Split` on a one-character separator. -/
def strSplit (s : String) (sep : Char) : List String :=
  (splitChar sep s.data).map String.mk

/-- `strings.Join`. -/
def strJoin (sep : String) : List String → String
  | [] => ""
  | [x] => x
  | x :: rest => x ++ sep ++ strJoin sep rest

/-- Most-significant-first decimal digit characters of `n`; fuel-indexed so
that it is structurally recursive (the fuel `n` itself always suffices). -/
def natDecCharsAux : Nat → Nat → List Char
  | 0, n => [digitChr (n % 10)]
  | fuel + 1, n => if n < 10 then [digitChr n] else natDecCharsAux fuel (n / 10) ++ [digitChr (n % 10)]

/-- Decimal representation of a natural number, as Go `strconv.FormatUint`
produces it. -/
def natRepr (n : Nat) : String := String.mk (natDecCharsAux n n)

/-- Left-fold a digit-character run onto an accumulator, the way
`strconv`'s digit loop does; `none` on the first non-digit. -/
def decDigitsAux : List Char → Nat → Option Nat
  | [], acc => some acc
  | c :: rest, acc =>
    match digitVal c with
    | none => none
    | some d => decDigitsAux rest (acc * 10 + d)

/-- Value of a nonempty digit-character list; `none` when empty or when it
contains a non-digit. -/
def decDigitsVal (cs : List Char) : Option Nat :=
  if cs = [] then none else decDigitsAux cs 0

/-- Decimal representation of a Go `int64`-family value
(`strconv.FormatInt`, as used by the encoder's `toString`). -/
def intRepr (i : Int) : String :=
  if i < 0 then "-" ++ natRepr i.natAbs else natRepr i.natAbs

/-- Model of `strconv.ParseUint(s, 10, 0)` (64-bit): digits only, no sign,
`none` on empty input, non-digits, or overflow. -/
def parseGoUint (s : String) : Option Nat := do
  let n ← decDigitsVal s.data
  if n < 2 ^ 64 then pure n else none

/-- Model of `strconv.ParseInt(s, 10, 0)` (64-bit): optional sign followed
by digits, with the asymmetric two's-complement range check. -/
def parseGoInt (s : String) : Option Int :=
  match s.data with
  | [] => none
  | c :: cs =>
    let signed : Bool × List Char :=
      if c = '-' then (true, cs) else if c = '+' then (false, cs) else (false, c :: cs)
    match decDigitsVal signed.2 with
    | none => none
    | some n =>
      if signed.1 then
        if n ≤ 2 ^ 63 then some (-(n : Int)) else none
      else
        if n < 2 ^ 63 then some (n : Int) else none

/-! ### Exact-decimal model of Go `float64` values -/

/-- A decimal number `mantissa × 10^(-fracLen)`.  This is the embedding's
stand-in for `float64`: the decoder's `strconv.ParseFloat` produces it from
the posted text and the encoder's `strconv.FormatFloat(f, 'f', -1, 64)`
renders it back. -/
structure Dec where
  mantissa : Int
  fracLen : Nat
  deriving Repr, DecidableEq

/-- Exactly `w` decimal digit characters of `n`, zero-padded, most
significant first (for `n < 10^w`). -/
def padDec : Nat → Nat → List Char
  | 0, _ => []
  | w + 1, n => padDec w (n / 10) ++ [digitChr (n % 10)]

/-- Render a `Dec` in Go's `%f`-style shortest form: no decimal point when
`fracLen = 0`, otherwise `intpart.fracpart` with the fraction zero-padded. -/
def formatDec (d : Dec) : String :=
  let sign := if d.mantissa < 0 then "-" else ""
  let a := d.mantissa.natAbs
  if d.fracLen = 0 then
    sign ++ natRepr a
  else
    sign ++ natRepr (a / 10 ^ d.fracLen) ++ "." ++
      String.mk (padDec d.fracLen (a % 10 ^ d.fracLen))

/-- Model of `strconv.ParseFloat(s, 64)` on plain decimal literals:
optional sign, digits, optional `.` and fraction digits.  Exponent, hex,
`Inf` and `NaN` forms are outside the model (no claim exercises them). -/
def parseGoFloat (s : String) : Option Dec :=
  match s.data with
  | [] => none
  | c :: cs =>
    let signed : Bool × List Char :=
      if c = '-' then (true, cs) else if c = '+' then (false, cs) else (false, c :: cs)
    let parts := splitChar '.' signed.2
    match parts with
    | [ip] => do
      let n ← decDigitsVal ip
      pure ⟨if signed.1 then -(n : Int) else (n : Int), 0⟩
    | [ip, fp] => do
      let n ← decDigitsVal (ip ++ fp)
      pure ⟨if signed.1 then -(n : Int) else (n : Int), fp.length⟩
    | _ => none

/-! ### Calendar time: the fixed `"2006-01-02T15:04"` format -/

/-- Model of Go `time.Time` restricted to calendar fields in UTC.
Sub-second precision and locations are elided; seconds are kept because the
form's minute-resolution layout drops them, which is observable. -/
structure GoTime where
  year : Nat
  month : Nat
  day : Nat
  hour : Nat
  minute : Nat
  sec : Nat
  deriving Repr, DecidableEq

/-- The zero `time.Time`: January 1, year 1, 00:00:00 UTC. -/
def zeroGoTime : GoTime := ⟨1, 1, 1, 0, 0, 0⟩

/-- `timeFormat` layout constant `"2006-01-02T15:04"` (encode.go). -/
def timeFormat : String := "2006-01-02T15:04"

/-- Two-digit zero-padded rendering (for `n < 100`). -/
def pad2 (n : Nat) : List Char := padDec 2 n

/-- Four-digit zero-padded rendering (for `n < 10000`). -/
def pad4 (n : Nat) : List Char := padDec 4 n

/-- `t.Format("2006-01-02T15:04")`: the minute-resolution rendering used by
`BuildTimeField`; seconds are not printed. -/
def formatGoTime (t : GoTime) : String :=
  String.mk (pad4 t.year ++ '-' :: pad2 t.month ++ '-' :: pad2 t.day ++
    'T' :: pad2 t.hour ++ ':' :: pad2 t.minute)

/-- Whether `y` is a leap year (Gregorian rule, as Go uses). -/
def isLeap (y : Nat) : Bool := y % 4 = 0 ∧ (y % 100 ≠ 0 ∨ y % 400 = 0)

/-- Days in a month, matching Go's per-month validation. -/
def daysInMonth (y m : Nat) : Nat :=
  if m = 2 then (if isLeap y then 29 else 28)
  else if m = 4 ∨ m = 6 ∨ m = 9 ∨ m = 11 then 30
  else 31

/-- Parse two digit characters. -/
def parse2 (a b : Char) : Option Nat := do
  let x ← digitVal a
  let y ← digitVal b
  pure (x * 10 + y)

/-- Model of `time.Parse("2006-01-02T15:04", s)`: fixed-width fields in the
exact layout, with Go's range validation of month, day (per month), hour
and minute.  The result has zero seconds, as the layout carries none. -/
def parseGoTime (s : String) : Option GoTime :=
  match s.data with
  | [y1, y2, y3, y4, d1, m1, m2, d2, dd1, dd2, t1, h1, h2, c1, n1, n2] => do
    if d1 = '-' ∧ d2 = '-' ∧ t1 = 'T' ∧ c1 = ':' then
      let ya ← parse2 y1 y2
      let yb ← parse2 y3 y4
      let mo ← parse2 m1 m2
      let da ← parse2 dd1 dd2
      let ho ← parse2 h1 h2
      let mi ← parse2 n1 n2
      let y := ya * 100 + yb
      if 1 ≤ mo ∧ mo ≤ 12 ∧ 1 ≤ da ∧ da ≤ daysInMonth y mo ∧ ho ≤ 23 ∧ mi ≤ 59 then
        pure ⟨y, mo, da, ho, mi, 0⟩
      else none
    else none
  | _ => none

/-! ### A small JSON codec for `[]string` (the opaque-collection branch)

The decoder's `reflect.Map/Slice/Array` branch round-trips unrecognised
collections through `encoding/json`.  The embedding instantiates that branch
at `[]string`; the codec below covers JSON arrays of strings with the `\"`
and `\\` escapes (sufficient for every claim that touches this branch). -/

/-- JSON-escape a string (quote and backslash only; our values contain no
control characters). -/
def jsonEscape (s : String) : String :=
  String.mk (s.data.flatMap fun c => if c = '"' ∨ c = '\\' then ['\\', c] else [c])

/-- Render a `[]string` the way `json.Encoder` with two-space indent does:
`[]` when empty, else one element per line. -/
def jsonEncodeStrList (xs : List String) : String :=
  match xs with
  | [] => "[]\n"
  | _ =>
    "[\n" ++ strJoin ",\n" (xs.map fun x => "  \"" ++ jsonEscape x ++ "\"") ++ "\n]\n"

/-- Parse one JSON string body (after the opening quote); returns the
string and the remaining characters after the closing quote. -/
def jsonStrBody : List Char → Option (String × List Char)
  | [] => none
  | '"' :: rest => some ("", rest)
  | '\\' :: c :: rest =>
    if c = '"' ∨ c = '\\' then
      match jsonStrBody rest with
      | some (s, r) => some (String.mk (c :: s.data), r)
      | none => none
    else none
  | c :: rest =>
    if c = '\\' then none
    else
      match jsonStrBody rest with
      | some (s, r) => some (String.mk (c :: s.data), r)
      | none => none

/-- Skip JSON whitespace. -/
def skipWs : List Char → List Char
  | c :: rest => if c = ' ' ∨ c = '\n' ∨ c = '\t' ∨ c = '\r' then skipWs rest else c :: rest
  | [] => []

/-- Parse the elements of a JSON string array after the first element,
i.e. a sequence of `, "..."` followed by `]`. -/
def jsonArrTail (fuel : Nat) (cs : List Char) : Option (List String) :=
  match fuel, skipWs cs with
  | _, ']' :: rest => if skipWs rest = [] then some [] else none
  | fuel + 1, ',' :: rest =>
    match skipWs rest with
    | '"' :: body =>
      match jsonStrBody body with
      | some (s, r) =>
        match jsonArrTail fuel r with
        | some xs => some (s :: xs)
        | none => none
      | none => none
    | _ => none
  | _, _ => none

/-- Model of `json.Unmarshal(data, &[]string)`: a JSON array of strings. -/
def jsonParseStrList (s : String) : Option (List String) :=
  match skipWs s.data with
  | '[' :: rest =>
    match skipWs rest with
    | ']' :: r => if skipWs r = [] then some [] else none
    | '"' :: body =>
      match jsonStrBody body with
      | some (x, r) =>
        match jsonArrTail r.length r with
        | some xs => some (x :: xs)
        | none => none
      | none => none
    | _ => none
  | _ => none

end Formulate

namespace Formulate

/-! ### Struct tags, field descriptors and show conditions -/

/-- The declarative struct tags consulted by `StructField`'s accessors.
Every component is the raw tag string, empty when absent (Go's
`Tag.Get` returns `""` for a missing tag).  `anonymous` mirrors
`reflect.StructField.Anonymous` (embedded fields). -/
structure Tags where
  nameTag : String := ""
  helpTag : String := ""
  showTag : String := ""
  typeTag : String := ""
  elemTag : String := ""
  minTag : String := ""
  maxTag : String := ""
  stepTag : String := ""
  patternTag : String := ""
  placeholderTag : String := ""
  requiredTag : String := ""
  validatorsTag : String := ""
  anonymous : Bool := false
  deriving Repr, DecidableEq

/-- A validation error: the failed value is carried as its rendered dynamic
value (see `DynVal` below for what validators receive). -/
structure ValidationError (α : Type) where
  error : String
  value : α
  deriving Repr, DecidableEq

/-- The show-condition registry: named zero-argument predicates.  The
predicates are modelled by their value at walk time (they take no
arguments), so the registry is an association list `name ↦ Bool` with Go
map semantics (first-match lookup). -/
abbrev ShowConditions := List (String × Bool)

/-- `StructField` as the engine sees it: the field's declared name, its
tags, and the validation errors attached during encoding. -/
structure StructField (α : Type) where
  name : String := ""
  tags : Tags := {}
  validationErrors : List (ValidationError α) := []
  deriving Repr, DecidableEq

/-- `StructField.Hidden`: split the `show` tag on commas, the first tag
with a registered condition decides (negated); otherwise hidden exactly
when the tag is the `"-"` sentinel. -/
def StructField.Hidden (sf : StructField α) (conds : ShowConditions) : Bool :=
  match (strSplit sf.tags.showTag ',').findSome? (fun tag => conds.lookup tag) with
  | some c => !c
  | none => sf.tags.showTag == "-"

/-- `StructField.GetName`: tag override (with `"-"` meaning empty),
falling back to the declared name.  The camel-case word splitting of the
fallback (external `camelcase` package) is presentational and elided. -/
def StructField.GetName (sf : StructField α) : String :=
  if sf.tags.nameTag = "-" then ""
  else if sf.tags.nameTag ≠ "" then sf.tags.nameTag
  else sf.name

/-- `StructField.GetHelpText`. -/
def StructField.GetHelpText (sf : StructField α) : String := sf.tags.helpTag

/-- `StructField.InputType`: tag override of the HTML input type. -/
def StructField.InputType (sf : StructField α) (original : String) : String :=
  if sf.tags.typeTag ≠ "" then sf.tags.typeTag else original

/-- `StructField.Elem`. -/
def StructField.Elem (sf : StructField α) : String := sf.tags.elemTag

/-- `StructField.Pattern`. -/
def StructField.Pattern (sf : StructField α) : String := sf.tags.patternTag

/-- `StructField.Placeholder`. -/
def StructField.Placeholder (sf : StructField α) : String := sf.tags.placeholderTag

/-- `StructField.Required`. -/
def StructField.Required (sf : StructField α) : Bool := sf.tags.requiredTag == "true"

/-- `StructField.HasMin` / `Min`, `HasMax` / `Max`, `HasStep` / `Step`. -/
def StructField.HasMin (sf : StructField α) : Bool := sf.tags.minTag ≠ ""

/-- Minimum bound tag value. -/
def StructField.Min (sf : StructField α) : String := sf.tags.minTag

/-- Whether a maximum bound tag is present. -/
def StructField.HasMax (sf : StructField α) : Bool := sf.tags.maxTag ≠ ""

/-- Maximum bound tag value. -/
def StructField.Max (sf : StructField α) : String := sf.tags.maxTag

/-- Whether a step tag is present. -/
def StructField.HasStep (sf : StructField α) : Bool := sf.tags.stepTag ≠ ""

/-- Step tag value. -/
def StructField.Step (sf : StructField α) : String := sf.tags.stepTag

/-- `StructField.BuildFieldset`: `show:"contents"` suppresses the
fieldset, `show:"fieldset"` forces one, otherwise named (non-anonymous)
structs get one. -/
def StructField.BuildFieldset (sf : StructField α) : Bool :=
  match (strSplit sf.tags.showTag ',').findSome?
      (fun tag => if tag = "contents" then some false
                  else if tag = "fieldset" then some true else none) with
  | some b => b
  | none => !sf.tags.anonymous

/-- `StructField.Validators`: the comma-separated validator tag names
(including empty components, as `strings.Split` produces them). -/
def StructField.Validators (sf : StructField α) : List String :=
  strSplit sf.tags.validatorsTag ','

/-! ### The record model -/

mutual
/-- The shapes of record values the embedding covers, mirroring the
reflection kinds the walker dispatches on:

  * `str` — `reflect.String` (also the underlying kind of the
    string-backed `Select` and radio types, which carry their option list
    in `selectV` / `radioV`);
  * `intV` / `uintV` — the signed and unsigned integer families;
  * `floatV` — `reflect.Float64/32`, as an exact decimal (`Dec`);
  * `boolV` — `reflect.Bool`;
  * `timeV` — `time.Time`;
  * `boolNumV` — the `BoolNumber` adapter type (an `int` rendered as a
    checkbox, decoded through its `CustomDecoder` implementation);
  * `strListV` — an unrecognised collection (`[]string`), rendered as a
    JSON text area and decoded through `encoding/json`;
  * `structV` — a nested struct with named, tagged fields. -/
inductive Value where
  | str (s : String)
  | intV (i : Int)
  | uintV (n : Nat)
  | floatV (d : Dec)
  | boolV (b : Bool)
  | timeV (t : GoTime)
  | selectV (cur : String) (opts : List String)
  | radioV (cur : String) (opts : List String)
  | boolNumV (n : Int)
  | strListV (xs : List String)
  | structV (fields : Fields)
  deriving Repr, DecidableEq
inductive Fields where
  | nil
  | cons (name : String) (tags : Tags) (v : Value) (rest : Fields)
  deriving Repr, DecidableEq
end

/-- Append two field lists. -/
def Fields.append : Fields → Fields → Fields
  | .nil, gs => gs
  | .cons n t v rest, gs => .cons n t v (rest.append gs)

/-- Length of a field list. -/
def Fields.length : Fields → Nat
  | .nil => 0
  | .cons _ _ _ rest => rest.length + 1

/-- The dynamic (`interface{}`) values handed to validators: the typed
result of parsing a posted value (`string`, `int64`, `uint64`, `float64`,
`bool`, `time.Time`, or a custom-decoded value). -/
abbrev DynVal := Value

/-- A registered `Validator`: its `TagName` and its `Validate` function
returning `(ok, message)`. -/
structure Validator where
  tagName : String
  validate : DynVal → Bool × String

/-! ### Form keys -/

/-- `fieldSeparator` (encode.go). -/
def fieldSeparator : String := "."

/-- `FormElementName` (encode.go): strip the first two dotted segments
(the record's qualified type name) when there are more than two, and
prepend the encoder's element-name prefix. -/
def FormElementName (pfx : String) (key : String) : String :=
  let keySplit := strSplit key '.'
  if keySplit.length > 2 then
    pfx ++ strJoin fieldSeparator (keySplit.drop 2)
  else
    pfx ++ key

/-- `formElementName` (decoder-side, one argument, no prefix): join the
dotted segments after the first two.  Go slices the split with `[2:]`,
which for the keys the decoder builds (always at least two segments, the
record's qualified type name) equals dropping two segments. -/
def formElementName (key : String) : String :=
  strJoin fieldSeparator ((strSplit key '.').drop 2)

/-! ### The validation store -/

/-- The in-memory `ValidationStore`.

Modelled from the spec: the `MemoryValidationStore` implementation is not
among the provided sources (only its tests and its callers are), so its
behaviour follows §4.4 of the spec — `AddError(path, error)` accumulates
per-path in order, `GetErrors(path)` returns that ordered list,
`ClearErrors()` empties the store, `SetRecordSnapshot`/`GetRecordSnapshot`
hold the in-flight record — and the store's unit tests (multiple errors
per key in insertion order; a snapshot that reads back what was stored).
All operations on the in-memory store succeed. -/
structure MemStore where
  errors : List (String × ValidationError DynVal) := []
  formValue : Option Value := none
  deriving Repr, DecidableEq

/-- `AddValidationError`: append the error for the field key. -/
def MemStore.AddValidationError (st : MemStore) (key : String)
    (e : ValidationError DynVal) : MemStore :=
  { st with errors := st.errors ++ [(key, e)] }

/-- `GetValidationErrors`: the errors recorded for a key, in order. -/
def MemStore.GetValidationErrors (st : MemStore) (key : String) :
    List (ValidationError DynVal) :=
  (st.errors.filter fun p => p.1 == key).map Prod.snd

/-- `ClearValidationErrors`: drop all recorded errors. -/
def MemStore.ClearValidationErrors (st : MemStore) : MemStore :=
  { st with errors := [] }

/-- `SetFormValue`: store the record snapshot. -/
def MemStore.SetFormValue (st : MemStore) (v : Value) : MemStore :=
  { st with formValue := some v }

end Formulate

namespace Formulate

/-! ### The HTTP decoder -/

/-- Posted form data: the flat list of posted `(key, value)` pairs. -/
abbrev Form := List (String × String)

/-- All values posted under a key, in order — what `url.Values[key]`
holds after `ParseQuery` aggregates the pairs. -/
def Form.get (form : Form) (key : String) : List String :=
  (form.filter fun p => p.1 == key).map Prod.snd

/-- A `Validate` function: dynamic value to `(ok, message)`. -/
abbrev ValidatorFun := DynVal → Bool × String

/-- `Failure` distinguishes errors returned from `Decode` from Go runtime
panics (which do not return at all). -/
inductive Failure where
  | fail (msg : String)
  | goPanic (msg : String)
  deriving Repr, DecidableEq

/-- The panic message for `values[0]` on an empty slice. -/
def indexOutOfRangeMsg : String := "runtime error: index out of range [0] with length 0"

/-- `HTTPDecoder`: posted values, show-condition registry, validator
registry (keyed by `TagName`, as `AddValidators` builds it), and the
`SetValueOnValidationError` flag (`false` in `NewDecoder`). -/
structure HTTPDecoder where
  form : Form
  showConditions : ShowConditions := []
  validators : List (String × ValidatorFun) := []
  setValueOnValidationError : Bool := false

/-- `getValidators`: look up each tag-name key in the registry, skipping
missing ones. -/
def HTTPDecoder.getValidators (h : HTTPDecoder) (keys : List String) : List ValidatorFun :=
  keys.filterMap fun key => h.validators.lookup key

/-- `getFormValues`: strip the walk key with `formElementName` and return
the posted values under the stripped key. -/
def HTTPDecoder.getFormValues (h : HTTPDecoder) (key : String) : List String :=
  Form.get h.form (formElementName key)

/-- Mutable decode state: the validation-failure counter and the
validation store. -/
structure DecoderSt where
  numValidationErrors : Nat
  store : MemStore
  deriving Repr, DecidableEq

/-- `passedValidation` (decode.go): run every validator on the parsed
value; each failure increments the counter and records a
`ValidationError` under the stripped key; the final verdict is
`all-passed || setValueOnValidationError`.  (`AddValidationError` on the
in-memory store cannot fail, so the error return of the Go function is
always `nil` and is dropped here.) -/
def HTTPDecoder.passedValidationAux (h : HTTPDecoder) (key : String) (value : DynVal) :
    List ValidatorFun → Bool → DecoderSt → Bool × DecoderSt
  | [], ok, st => (ok || h.setValueOnValidationError, st)
  | vf :: rest, ok, st =>
    let res := vf value
    if res.1 then
      h.passedValidationAux key value rest ok st
    else
      h.passedValidationAux key value rest false
        ⟨st.numValidationErrors + 1,
         st.store.AddValidationError (formElementName key) ⟨res.2, value⟩⟩

/-- Entry point of `passedValidation`, starting with verdict `true`. -/
def HTTPDecoder.passedValidation (h : HTTPDecoder) (key : String) (value : DynVal)
    (validators : List ValidatorFun) (st : DecoderSt) : Bool × DecoderSt :=
  h.passedValidationAux key value validators true st

/-- The assignment pattern shared by every leaf branch of `decode`:
`if ok, err := h.passedValidation(key, v, validators); ok && err == nil`
assign the parsed value, otherwise keep the pre-existing one (the error
return is always nil with the in-memory store). -/
def HTTPDecoder.setIfPassed (h : HTTPDecoder) (key : String) (dyn : DynVal)
    (validators : List ValidatorFun) (st : DecoderSt) (parsed fallback : Value) :
    Except Failure (Value × DecoderSt) :=
  let r := h.passedValidation key dyn validators st
  if r.1 then .ok (parsed, r.2) else .ok (fallback, r.2)

mutual
/-- `HTTPDecoder.decode` (decode.go): decode one addressable value.

Dispatch order is load-bearing and mirrors the source:
  1. `CustomDecoder` values (`boolNumV` here) are decoded through
     `DecodeFormValue` *before* any absent-values check; `BoolNumber`'s
     implementation indexes `values[0]` unguarded, so an absent key is a
     runtime panic.
  2. `time.Time`: absent values leave `t` at the zero time, which is then
     validated and assigned; malformed values are a returned error.
  3. Structs recurse per field, skipping hidden fields.
  4. Remaining concrete kinds first return unchanged when no values are
     posted, then parse `values[0]`: strings verbatim; int/uint/float via
     `strconv` (empty string parses as zero, malformed input is a returned
     error); bools accept `"on"` without validation, else parse 0/1;
     collections go through `encoding/json` with `""` meaning the zero
     value.  Parsed values are assigned only when `passedValidation`
     allows it.

The string-backed select and radio kinds (`selectV`, `radioV`) have
`reflect.Kind` `String`, so they take the plain string branch, with the
option list untouched (it lives in the type, not the value). -/
def HTTPDecoder.decode (h : HTTPDecoder) (v : Value) (key : String)
    (validators : List ValidatorFun) (st : DecoderSt) : Except Failure (Value × DecoderSt) :=
  match v with
  | .boolNumV _ =>
    match h.getFormValues key with
    | [] => .error (.goPanic indexOutOfRangeMsg)
    | val :: _ =>
      let decodedFormVal : Value := .boolNumV (if val == "on" || val == "1" then 1 else 0)
      h.setIfPassed key decodedFormVal validators st decodedFormVal v
  | .timeV _ =>
    match h.getFormValues key with
    | [] => h.setIfPassed key (.timeV zeroGoTime) validators st (.timeV zeroGoTime) v
    | s :: _ =>
      match parseGoTime s with
      | none => .error (.fail ("parsing time " ++ s ++ " as " ++ timeFormat))
      | some t => h.setIfPassed key (.timeV t) validators st (.timeV t) v
  | .structV fs =>
    match h.decodeFields fs key st with
    | .error e => .error e
    | .ok (fs', st') => .ok (.structV fs', st')
  | .str _ =>
    match h.getFormValues key with
    | [] => .ok (v, st)
    | formValue :: _ =>
      h.setIfPassed key (.str formValue) validators st (.str formValue) v
  | .selectV _ opts =>
    match h.getFormValues key with
    | [] => .ok (v, st)
    | formValue :: _ =>
      h.setIfPassed key (.str formValue) validators st (.selectV formValue opts) v
  | .radioV _ opts =>
    match h.getFormValues key with
    | [] => .ok (v, st)
    | formValue :: _ =>
      h.setIfPassed key (.str formValue) validators st (.radioV formValue opts) v
  | .floatV _ =>
    match h.getFormValues key with
    | [] => .ok (v, st)
    | formValue :: _ =>
      match (if formValue = "" then some ⟨0, 0⟩ else parseGoFloat formValue) with
      | none => .error (.fail ("strconv.ParseFloat: parsing " ++ formValue))
      | some f => h.setIfPassed key (.floatV f) validators st (.floatV f) v
  | .intV _ =>
    match h.getFormValues key with
    | [] => .ok (v, st)
    | formValue :: _ =>
      match (if formValue = "" then some 0 else parseGoInt formValue) with
      | none => .error (.fail ("strconv.ParseInt: parsing " ++ formValue))
      | some i => h.setIfPassed key (.intV i) validators st (.intV i) v
  | .uintV _ =>
    match h.getFormValues key with
    | [] => .ok (v, st)
    | formValue :: _ =>
      match (if formValue = "" then some 0 else parseGoUint formValue) with
      | none => .error (.fail ("strconv.ParseUint: parsing " ++ formValue))
      | some i => h.setIfPassed key (.uintV i) validators st (.uintV i) v
  | .boolV _ =>
    match h.getFormValues key with
    | [] => .ok (v, st)
    | formValue :: _ =>
      if formValue == "on" then .ok (.boolV true, st)
      else
        match (if formValue = "" then some 0 else parseGoInt formValue) with
        | none => .error (.fail ("strconv.ParseInt: parsing " ++ formValue))
        | some i => h.setIfPassed key (.boolV (i == 1)) validators st (.boolV (i == 1)) v
  | .strListV _ =>
    match h.getFormValues key with
    | [] => .ok (v, st)
    | formValue :: _ =>
      if formValue = "" then .ok (.strListV [], st)
      else
        match jsonParseStrList formValue with
        | none => .error (.fail ("json: cannot unmarshal " ++ formValue))
        | some xs => .ok (.strListV xs, st)
  termination_by structural v
/-- The struct-field loop of `HTTPDecoder.decode`: hidden fields are
skipped (left untouched), the rest are decoded in declaration order with
the validators named by their `validators` tag; the first returned error
aborts the loop. -/
def HTTPDecoder.decodeFields (h : HTTPDecoder) (fs : Fields) (key : String)
    (st : DecoderSt) : Except Failure (Fields × DecoderSt) :=
  match fs with
  | .nil => .ok (.nil, st)
  | .cons n t v rest =>
    if (StructField.Hidden (α := DynVal) ⟨n, t, []⟩ h.showConditions) then
      match h.decodeFields rest key st with
      | .error e => .error e
      | .ok (rest', st') => .ok (.cons n t v rest', st')
    else
      match h.decode v (key ++ fieldSeparator ++ n)
          (h.getValidators (StructField.Validators (α := DynVal) ⟨n, t, []⟩)) st with
      | .error e => .error e
      | .ok (v', st') =>
        match h.decodeFields rest key st' with
        | .error e => .error e
        | .ok (rest', st'') => .ok (.cons n t v' rest', st'')
  termination_by structural fs
end

/-- The observable outcome of a `Decode` call: success, the
`ErrFormFailedValidation` sentinel (with the record snapshot persisted via
`SetFormValue`), or a failure (returned hard error or runtime panic). -/
inductive DecodeOutcome where
  | success (rec : Value) (store : MemStore)
  | failedValidation (rec : Value) (store : MemStore)
  | fatal (f : Failure)
  deriving Repr, DecidableEq

/-- `HTTPDecoder.Decode` (decode.go): walk the record; afterwards, when
the failure counter is nonzero, persist the (mutated) record with
`SetFormValue` and report the `ErrFormFailedValidation` sentinel.

A `BoolNumber` at top level takes the top-level `CustomDecoder` branch,
which calls `DecodeFormValue(form, "", nil)` with nil values — an
unconditional out-of-range panic.  Any other non-struct target is the
documented contract-violation panic. -/
def HTTPDecoder.Decode (h : HTTPDecoder) (store0 : MemStore) (rec : Value)
    (typeName : String) : DecodeOutcome :=
  match rec with
  | .structV _ =>
    match h.decode rec typeName [] ⟨0, store0⟩ with
    | .error f => .fatal f
    | .ok (rec', st) =>
      if st.numValidationErrors > 0 then
        .failedValidation rec' (st.store.SetFormValue rec')
      else
        .success rec' st.store
  | .boolNumV _ => .fatal (.goPanic indexOutOfRangeMsg)
  | _ => .fatal (.goPanic "formulate: decode target underlying value must be struct")

end Formulate

namespace Formulate

/-! ### HTML nodes and the encoder -/

mutual
/-- A rendered HTML node (`golang.org/x/net/html.Node`): an element with
its attribute list and children, or a text node.  Attributes keep
insertion order; a bare boolean attribute (e.g. `checked`) is a pair with
an empty value. -/
inductive Node where
  | elem (tag : String) (attrs : List (String × String)) (children : NodeList)
  | text (s : String)
  deriving Repr, DecidableEq
/-- Children of a `Node`. -/
inductive NodeList where
  | nil
  | cons (n : Node) (rest : NodeList)
  deriving Repr, DecidableEq
end

/-- Build a `NodeList` from a `List Node`. -/
def NodeList.ofList : List Node → NodeList
  | [] => .nil
  | n :: rest => .cons n (NodeList.ofList rest)

/-- First attribute value for a key (`html.Node.Attr` scan). -/
def attrVal (attrs : List (String × String)) (key : String) : Option String :=
  attrs.lookup key

/-- Concatenated text of the direct text children (used for `textarea`
content). -/
def textOf : NodeList → String
  | .nil => ""
  | .cons (.text s) rest => s ++ textOf rest
  | .cons (.elem _ _ _) rest => textOf rest

/-- `toString` (encode.go): render a primitive value with `strconv`. -/
def toStringGo : Value → String
  | .str s => s
  | .selectV cur _ => cur
  | .radioV cur _ => cur
  | .intV i => intRepr i
  | .boolNumV i => intRepr i
  | .uintV n => natRepr n
  | .floatV d => formatDec d
  | .boolV b => if b then "true" else "false"
  | .timeV _ => ""
  | .strListV _ => ""
  | .structV _ => ""

/-- `BuildLabel` (encode.go): a `label` for the element, with the field's
display name. -/
def BuildLabel (key : String) (field : StructField DynVal) : Node :=
  .elem "label" [("for", key)] (.cons (.text field.GetName) .nil)

/-- `BuildHelpText` (encode.go): a `div` holding the field's help text
(always appended, even when empty). -/
def BuildHelpText (field : StructField DynVal) : Node :=
  .elem "div" [] (.cons (.text field.GetHelpText) .nil)

/-- `BuildValidationText` (encode.go): a `div` holding the comma-joined
validation error messages. -/
def BuildValidationText (field : StructField DynVal) : Node :=
  .elem "div" []
    (.cons (.text (strJoin ", " (field.validationErrors.map fun e => e.error))) .nil)

/-- `BuildTimeField` (encode.go): a `datetime-local` input holding the
minute-resolution rendering of the time, plus optional min/max. -/
def BuildTimeField (t : GoTime) (key : String) (field : StructField DynVal) : Node :=
  .elem "input"
    ([("type", "datetime-local"), ("name", key), ("id", key), ("value", formatGoTime t)] ++
      (if field.HasMin then [("min", field.Min)] else []) ++
      (if field.HasMax then [("max", field.Max)] else []))
    .nil

/-- `BuildNumberField` (encode.go): a `number` input whose value is the
`toString` rendering, plus min/max/step (`step="any"` for floats without
an explicit step tag). -/
def BuildNumberField (val : String) (isFloat : Bool) (key : String)
    (field : StructField DynVal) : Node :=
  .elem "input"
    ([("type", "number"), ("name", key), ("id", key), ("value", val)] ++
      (if field.HasMin then [("min", field.Min)] else []) ++
      (if field.HasMax then [("max", field.Max)] else []) ++
      (if field.HasStep then [("step", field.Step)]
       else if isFloat then [("step", "any")] else []))
    .nil

/-- `BuildStringField` (encode.go): a `textarea` when `elem:"textarea"`,
else a text-like input; pattern/placeholder/required/minlength/maxlength
come from the tags.  The special string types (`Password`, `Email`, `URL`,
`Tel`) only alter the default input type and are elided: plain strings
default to `"text"`. -/
def BuildStringField (s : String) (key : String) (field : StructField DynVal) : Node :=
  if field.Elem == "textarea" then
    .elem "textarea"
      ([("name", key), ("id", key)] ++
        (if field.Placeholder ≠ "" then [("placeholder", field.Placeholder)] else []) ++
        (if field.Required then [("required", "required")] else []) ++
        (if field.HasMin then [("minlength", field.Min)] else []) ++
        (if field.HasMax then [("maxlength", field.Max)] else []))
      (.cons (.text s) .nil)
  else
    .elem "input"
      ([("type", field.InputType "text"), ("name", key), ("id", key), ("value", s)] ++
        (if field.Pattern ≠ "" then [("pattern", field.Pattern)] else []) ++
        (if field.Placeholder ≠ "" then [("placeholder", field.Placeholder)] else []) ++
        (if field.Required then [("required", "required")] else []) ++
        (if field.HasMin then [("minlength", field.Min)] else []) ++
        (if field.HasMax then [("maxlength", field.Max)] else []))
      .nil

/-- `BuildBoolField` (encode.go): a checkbox with no value attribute,
checked for `true` (or a `BoolNumber` equal to 1). -/
def BuildBoolField (checked : Bool) (key : String) : Node :=
  .elem "input"
    ([("type", "checkbox"), ("name", key), ("id", key)] ++
      (if checked then [("checked", "checked")] else []))
    .nil

/-- Option nodes of `BuildSelectField`: each `option` carries its value
and is `selected` when it equals the current value (the `opt.Checked`
override is nil for the plain string-backed selects modelled here, so the
default equality comparison applies; the option label is its value). -/
def selectOptionNodes (cur : String) : List String → List Node
  | [] => []
  | opt :: rest =>
    .elem "option"
        ([("value", opt)] ++ (if cur == opt then [("selected", "")] else []))
        (.cons (.text opt) .nil) ::
      selectOptionNodes cur rest

/-- `BuildSelectField` (encode.go) for a single-value string-backed
`Select`: no `multiple` attribute, no option groups. -/
def BuildSelectField (cur : String) (opts : List String) (key : String) : Node :=
  .elem "select" [("name", key), ("id", key)] (NodeList.ofList (selectOptionNodes cur opts))

/-- Label/input pairs of `BuildRadioButtons`, with per-option ids
`key ++ i`.  `checked` is the `opt.Value == r` comparison, which for
options carrying the field's own string-backed type is string equality. -/
def radioOptionNodes (cur : String) (key : String) (i : Nat) : List String → List Node
  | [] => []
  | opt :: rest =>
    let id := key ++ natRepr i
    .elem "label" [("for", id)] (.cons (.text opt) .nil) ::
      .elem "input"
        ([("type", "radio"), ("value", opt), ("id", id), ("name", key)] ++
          (if opt == cur then [("checked", "")] else []))
        .nil ::
      radioOptionNodes cur key (i + 1) rest

/-- `BuildRadioButtons` (encode.go): a `div` with one label and one radio
input per option. -/
def BuildRadioButtons (cur : String) (opts : List String) (key : String) : Node :=
  .elem "div" [("id", key)] (NodeList.ofList (radioOptionNodes cur key 0 opts))

/-- The single form control `BuildField` builds for a value, by the
source's dispatch order: `CustomEncoder` first (`strListV` reaches
`BuildField` as the JSON `Raw` text area via the collection branch of
`recurse`), then `time.Time` / `Select` / radio, then numeric kinds (with
the `BoolNumber` checkbox adapter checked first), strings and bools.
A struct never reaches `BuildField` (the walker recurses instead). -/
def buildInputNode (v : Value) (key : String) (field : StructField DynVal) : List Node :=
  match v with
  | .strListV xs =>
    [.elem "textarea" [("name", key), ("id", key)]
      (.cons (.text (jsonEncodeStrList xs)) .nil)]
  | .timeV t => [BuildTimeField t key field]
  | .selectV cur opts => [BuildSelectField cur opts key]
  | .radioV cur opts => [BuildRadioButtons cur opts key]
  | .intV i => [BuildNumberField (intRepr i) false key field]
  | .uintV n => [BuildNumberField (natRepr n) false key field]
  | .floatV d => [BuildNumberField (formatDec d) true key field]
  | .boolNumV i => [BuildBoolField (i == 1) key]
  | .str s => [BuildStringField s key field]
  | .boolV b => [BuildBoolField b key]
  | .structV _ => []

/-- `BuildField` (encode.go): skip hidden fields entirely; render
`type:"hidden"` fields as the bare input with no furniture; otherwise
build the row `div` holding the label and a wrapper `div` with the input,
the validation-error text (only when errors are attached), and the help
text.  The nil decorator applies no decoration. -/
def BuildField (conds : ShowConditions) (v : Value) (key : String)
    (field : StructField DynVal) : List Node :=
  if field.Hidden conds then []
  else
    let inputs := buildInputNode v key field
    if field.InputType "" == "hidden" then inputs
    else
      [.elem "div" []
        (NodeList.ofList
          [BuildLabel key field,
           .elem "div" []
             (NodeList.ofList
               (inputs ++
                 (if field.validationErrors ≠ [] then [BuildValidationText field] else []) ++
                 [BuildHelpText field]))])]

/-- `HTMLEncoder` configuration: show conditions and the element-name
prefix (`SetElementNamePrefix`); the validation store is threaded
separately because `Encode` mutates it.  Formatting, CSRF protection and
decorators are presentational and elided (nil decorator, both flags off). -/
structure HTMLEncoder where
  showConditions : ShowConditions := []
  namePfx : String := ""

/-- Legend-then-children content of a fieldset (`buildFieldSet`,
encode.go): the legend is present only when the display name is
non-empty. -/
def buildFieldSetNode (field : StructField DynVal) (children : List Node) : Node :=
  .elem "fieldset"
    []
    (NodeList.ofList
      ((if field.GetName ≠ "" then
          [Node.elem "legend" [] (.cons (.text field.GetName) .nil)]
        else []) ++ children))

mutual
/-- `HTMLEncoder.recurse` (encode.go): the encoder's walk.  Time, select
and radio values short-circuit to `BuildField` with the stripped,
prefixed key; structs check their own visibility, render their fields
into a container, and wrap it in a fieldset when `BuildFieldset` says so
— unless the container is empty, in which case nothing is emitted;
unrecognised collections serialize to JSON and render through the `Raw`
custom encoder; every other kind is a leaf handled by `BuildField`. -/
def HTMLEncoder.recurse (e : HTMLEncoder) (store : MemStore) (v : Value)
    (key : String) (field : StructField DynVal) : List Node :=
  match v with
  | .timeV _ | .selectV _ _ | .radioV _ _ | .strListV _ =>
    BuildField e.showConditions v (FormElementName e.namePfx key) field
  | .structV fs =>
    if field.Hidden e.showConditions then []
    else
      let children := e.recurseFields store fs key
      if children = [] then []
      else if field.BuildFieldset then [buildFieldSetNode field children]
      else children
  | _ => BuildField e.showConditions v (FormElementName e.namePfx key) field
  termination_by structural v
/-- The struct-field loop of `HTMLEncoder.recurse`: extend the key,
fetch the field's previously-recorded validation errors from the store,
and render each field in order. -/
def HTMLEncoder.recurseFields (e : HTMLEncoder) (store : MemStore) (fs : Fields)
    (key : String) : List Node :=
  match fs with
  | .nil => []
  | .cons n t v rest =>
    let nextKey := key ++ fieldSeparator ++ n
    let errs := store.GetValidationErrors (FormElementName e.namePfx nextKey)
    e.recurse store v nextKey ⟨n, t, errs⟩ ++ e.recurseFields store rest key
  termination_by structural fs
end

/-- `HTMLEncoder.Encode` (encode.go): read back a pending record snapshot
from the validation store (replacing the argument when one is stored, and
consuming it), fail with the incorrect-value error unless the record is a
struct, and render it.  The deferred `ClearValidationErrors` empties the
store's errors regardless of the error state of the encode itself. -/
def HTMLEncoder.Encode (e : HTMLEncoder) (store0 : MemStore) (rec : Value)
    (typeName : String) : Except String (List Node) × MemStore :=
  let i := store0.formValue.getD rec
  let res : Except String (List Node) :=
    match i with
    | .structV _ => .ok (e.recurse store0 i typeName {})
    | _ => .error "formulate: encode expects a struct value"
  (res, { store0 with errors := [], formValue := none })

/-! ### Reading the posted pairs back from rendered output

Modelled from the spec: the round-trip property says the produced output
is "parsed back" into posted key/value pairs.  The functions below model a
standard browser form submission over the rendered controls: text-like
inputs post their `value`; checkboxes and radios post only when `checked`
(a checkbox without a value attribute posts `"on"`); a `select` posts its
`selected` option; a `textarea` posts its text content. -/

/-- Pairs posted by one `input` element. -/
def inputPairs (attrs : List (String × String)) : Form :=
  let name := (attrVal attrs "name").getD ""
  match attrVal attrs "type" with
  | some "checkbox" =>
    if attrVal attrs "checked" = none then []
    else [(name, (attrVal attrs "value").getD "on")]
  | some "radio" =>
    if attrVal attrs "checked" = none then []
    else [(name, (attrVal attrs "value").getD "on")]
  | _ => [(name, (attrVal attrs "value").getD "")]

/-- The selected option's pair of a `select` element, if any. -/
def selectedOptionPairs (name : String) : NodeList → Form
  | .nil => []
  | .cons (.elem "option" oattrs _) rest =>
    if attrVal oattrs "selected" ≠ none then [(name, (attrVal oattrs "value").getD "")]
    else selectedOptionPairs name rest
  | .cons _ rest => selectedOptionPairs name rest

mutual
/-- Posted pairs contributed by a node and its descendants, in document
order. -/
def nodePairs (node : Node) : Form :=
  match node with
  | .text _ => []
  | .elem tag attrs children =>
    if tag = "input" then inputPairs attrs
    else if tag = "textarea" then [((attrVal attrs "name").getD "", textOf children)]
    else if tag = "select" then selectedOptionPairs ((attrVal attrs "name").getD "") children
    else nodeListPairs children
  termination_by structural node
/-- Posted pairs of a list of children. -/
def nodeListPairs (nl : NodeList) : Form :=
  match nl with
  | .nil => []
  | .cons n rest => nodePairs n ++ nodeListPairs rest
  termination_by structural nl
end

/-- Posted pairs of a rendered node list. -/
def pairsOfList : List Node → Form
  | [] => []
  | n :: rest => nodePairs n ++ pairsOfList rest

end Formulate

namespace Formulate

/-- Decidable equality for `Except` results (used to evaluate the model on
concrete inputs). -/
instance instDecEqExcept {ε α : Type} [DecidableEq ε] [DecidableEq α] :
    DecidableEq (Except ε α) := fun a b =>
  match a, b with
  | .ok x, .ok y => decidable_of_iff (x = y) (by simp)
  | .error x, .error y => decidable_of_iff (x = y) (by simp)
  | .ok _, .error _ => isFalse (by simp)
  | .error _, .ok _ => isFalse (by simp)

end Formulate

namespace Formulate

/-! ### Derived predicates and observations used by the claims -/

/-- The value component of a decode result (used to state that validation
failures affect only the error state, never the decoded values). -/
def valuePart (r : Except Failure (Value × DecoderSt)) : Except Failure Value :=
  r.map Prod.fst

/-- The fields component of a struct decode result. -/
def fieldsPart (r : Except Failure (Fields × DecoderSt)) : Except Failure Fields :=
  r.map Prod.fst

/-- Indexed access into a field list. -/
def Fields.get? : Fields → Nat → Option (String × Tags × Value)
  | .nil, _ => none
  | .cons n t v _, 0 => some (n, t, v)
  | .cons _ _ _ rest, i + 1 => rest.get? i

/-- Drop the fields hidden under a show-condition registry. -/
def Fields.filterVisible (conds : ShowConditions) : Fields → Fields
  | .nil => .nil
  | .cons n t v rest =>
    if (StructField.Hidden (α := DynVal) ⟨n, t, []⟩ conds) then rest.filterVisible conds
    else .cons n t v (rest.filterVisible conds)

/-- A calendar-valid time the fixed layout can render faithfully:
four-digit year and in-range month/day/hour/minute. -/
def GoTime.valid (t : GoTime) : Prop :=
  t.year < 10000 ∧ 1 ≤ t.month ∧ t.month ≤ 12 ∧ 1 ≤ t.day ∧
    t.day ≤ daysInMonth t.year t.month ∧ t.hour ≤ 23 ∧ t.minute ≤ 59

instance (t : GoTime) : Decidable t.valid := by
  unfold GoTime.valid; infer_instance

/-- The concrete leaf kinds reached below the decoder's absent-values
guard ("concrete types that do not call decode recursively"):
string-kind leaves (including select/radio), numbers, bools, and opaque
collections — everything except time, custom decoders and structs. -/
def concreteLeaf : Value → Bool
  | .str _ | .intV _ | .uintV _ | .floatV _ | .boolV _
  | .selectV _ _ | .radioV _ _ | .strListV _ => true
  | _ => false

/-- The primitive leaf kinds named by the frame claims: string, integer,
unsigned, float, boolean (plus the string-backed select/radio leaves,
which share the string branch). -/
def primLeaf : Value → Bool
  | .str _ | .intV _ | .uintV _ | .floatV _ | .boolV _
  | .selectV _ _ | .radioV _ _ => true
  | _ => false

mutual
/-- Pointwise agreement on primitive leaves: both records have the same
shape and equal values at every `primLeaf` (and `strListV`) position;
time and `BoolNumber` leaves are unconstrained. -/
def agreesPrim (a b : Value) : Bool :=
  match a, b with
  | .str x, .str y => x == y
  | .intV x, .intV y => x == y
  | .uintV x, .uintV y => x == y
  | .floatV x, .floatV y => x == y
  | .boolV x, .boolV y => x == y
  | .selectV x xo, .selectV y yo => x == y && xo == yo
  | .radioV x xo, .radioV y yo => x == y && xo == yo
  | .strListV x, .strListV y => x == y
  | .timeV _, .timeV _ => true
  | .boolNumV _, .boolNumV _ => true
  | .structV fs, .structV gs => agreesPrimF fs gs
  | _, _ => false
/-- Fieldwise `agreesPrim`, requiring matching names and tags. -/
def agreesPrimF (a b : Fields) : Bool :=
  match a, b with
  | .nil, .nil => true
  | .cons n t v rest, .cons n' t' v' rest' =>
    n == n' && t == t' && agreesPrim v v' && agreesPrimF rest rest'
  | _, _ => false
end

/-- A posted first value the decoder cannot parse for the given leaf kind:
a malformed number (int/uint/float), a malformed date-time, or a
malformed opaque-collection JSON payload.  (The empty string is not
malformed: numbers treat it as zero and collections as the zero value;
`"on"` short-circuits the bool branch.) -/
def malformedFor : Value → String → Bool
  | .intV _, s => s ≠ "" && (parseGoInt s).isNone
  | .uintV _, s => s ≠ "" && (parseGoUint s).isNone
  | .floatV _, s => s ≠ "" && (parseGoFloat s).isNone
  | .boolV _, s => s ≠ "on" && s ≠ "" && (parseGoInt s).isNone
  | .timeV _, s => (parseGoTime s).isNone
  | .strListV _, s => s ≠ "" && (jsonParseStrList s).isNone
  | _, _ => false

mutual
/-- The posted pairs a browser submits for the rendered subtree at `v`
(keys already stripped by `FormElementName ""`): text-like controls post
their rendered value, checkboxes post `"on"` only when set, selects post
the first selected option, radios post every checked option. -/
def leafPairs (v : Value) (key : String) : Form :=
  match v with
  | .str s => [(FormElementName "" key, s)]
  | .intV i => [(FormElementName "" key, intRepr i)]
  | .uintV n => [(FormElementName "" key, natRepr n)]
  | .floatV d => [(FormElementName "" key, formatDec d)]
  | .boolV b => if b then [(FormElementName "" key, "on")] else []
  | .timeV t => [(FormElementName "" key, formatGoTime t)]
  | .selectV cur opts =>
    if cur ∈ opts then [(FormElementName "" key, cur)] else []
  | .radioV cur opts => (opts.filter fun o => o == cur).map fun o => (FormElementName "" key, o)
  | .boolNumV i => if i == 1 then [(FormElementName "" key, "on")] else []
  | .strListV xs => [(FormElementName "" key, jsonEncodeStrList xs)]
  | .structV fs => leafPairsF fs key
/-- Per-field concatenation of `leafPairs`. -/
def leafPairsF (fs : Fields) (key : String) : Form :=
  match fs with
  | .nil => []
  | .cons n _ v rest => leafPairs v (key ++ fieldSeparator ++ n) ++ leafPairsF rest key
end

mutual
/-- The stripped form keys of every leaf of the subtree at `v` (posted or
not). -/
def leafKeys (v : Value) (key : String) : List String :=
  match v with
  | .structV fs => leafKeysF fs key
  | _ => [FormElementName "" key]
/-- Per-field concatenation of `leafKeys`. -/
def leafKeysF (fs : Fields) (key : String) : List String :=
  match fs with
  | .nil => []
  | .cons n _ v rest => leafKeys v (key ++ fieldSeparator ++ n) ++ leafKeysF rest key
end

mutual
/-- Round-trippable subtree at `key`: every leaf is of a supported
primitive kind within the representable range (64-bit integers,
calendar-valid minute-resolution times), every field carries default
tags, and every key has more than two dotted segments (so that the
encoder-side and decoder-side key stripping agree). -/
def rtOk (v : Value) (key : String) : Bool :=
  match v with
  | .str _ | .selectV _ _ | .radioV _ _ | .floatV _ => 2 < (strSplit key '.').length
  | .intV i => (2 < (strSplit key '.').length) && decide (-(2 ^ 63 : Int) ≤ i) && decide (i < 2 ^ 63)
  | .uintV n => (2 < (strSplit key '.').length) && decide (n < 2 ^ 64)
  | .boolV _ => 2 < (strSplit key '.').length
  | .timeV t => (2 < (strSplit key '.').length) && decide t.valid && t.sec == 0
  | .boolNumV _ | .strListV _ => false
  | .structV fs => rtOkF fs key
/-- Fieldwise `rtOk` with default tags. -/
def rtOkF (fs : Fields) (key : String) : Bool :=
  match fs with
  | .nil => true
  | .cons n t v rest => t == ({} : Tags) && rtOk v (key ++ fieldSeparator ++ n) && rtOkF rest key
end

mutual
/-- `F` carries, under each leaf's stripped key, exactly the values the
rendered subtree at `v` would post. -/
def formAgrees (F : Form) (v : Value) (key : String) : Bool :=
  match v with
  | .structV fs => formAgreesF F fs key
  | _ => Form.get F (FormElementName "" key) == (leafPairs v key).map Prod.snd
/-- Fieldwise `formAgrees`. -/
def formAgreesF (F : Form) (fs : Fields) (key : String) : Bool :=
  match fs with
  | .nil => true
  | .cons n _ v rest => formAgrees F v (key ++ fieldSeparator ++ n) && formAgreesF F rest key
end

mutual
/-- Whether `target` occurs as a subtree of the node (inclusive). -/
def containsSub (target node : Node) : Bool :=
  node == target ||
    match node with
    | .elem _ _ children => containsSubL target children
    | .text _ => false
/-- Whether `target` occurs in any of the children. -/
def containsSubL (target : Node) (nl : NodeList) : Bool :=
  match nl with
  | .nil => false
  | .cons n rest => containsSub target n || containsSubL target rest
end

mutual
/-- The `name` attributes of all form controls in the rendered subtree
(whether or not they would post a value). -/
def controlNames (node : Node) : List String :=
  match node with
  | .text _ => []
  | .elem tag attrs children =>
    if tag = "input" ∨ tag = "textarea" ∨ tag = "select" then
      (match attrVal attrs "name" with | some n => [n] | none => []) ++ controlNamesL children
    else controlNamesL children
/-- `controlNames` over children. -/
def controlNamesL (nl : NodeList) : List String :=
  match nl with
  | .nil => []
  | .cons n rest => controlNames n ++ controlNamesL rest
end

/-- `controlNames` over a rendered node list. -/
def controlNamesList : List Node → List String
  | [] => []
  | n :: rest => controlNames n ++ controlNamesList rest

end Formulate

namespace Formulate

/-! ### Lemmas: decimal printing and parsing invert each other -/

theorem digitVal_digitChr {d : Nat} (h : d < 10) : digitVal (digitChr d) = some d := by
  interval_cases d <;> decide

theorem digitChr_not_sign {d : Nat} (h : d < 10) :
    digitChr d ≠ '-' ∧ digitChr d ≠ '+' ∧ digitChr d ≠ '.' := by
  interval_cases d <;> decide

theorem decDigitsAux_append (xs ys : List Char) (acc : Nat) :
    decDigitsAux (xs ++ ys) acc = (decDigitsAux xs acc).bind (decDigitsAux ys) := by
  induction xs generalizing acc with
  | nil => simp [decDigitsAux]
  | cons c rest ih =>
    simp only [List.cons_append, decDigitsAux]
    cases digitVal c <;> simp [ih]

theorem decDigitsAux_padDec (w : Nat) :
    ∀ n acc, n < 10 ^ w → decDigitsAux (padDec w n) acc = some (acc * 10 ^ w + n) := by
  induction w with
  | zero => intro n acc h; interval_cases n; simp [padDec, decDigitsAux]
  | succ w ih =>
    intro n acc h
    have hpow : (10 : Nat) ^ (w + 1) = 10 ^ w * 10 := by ring
    have hd : n / 10 < 10 ^ w := by omega
    have hm : n % 10 < 10 := Nat.mod_lt _ (by norm_num)
    rw [padDec, decDigitsAux_append, ih (n / 10) acc hd]
    simp only [decDigitsAux, digitVal_digitChr hm, Option.some_bind]
    congr 1
    have hdm : 10 * (n / 10) + n % 10 = n := by omega
    calc (acc * 10 ^ w + n / 10) * 10 + n % 10
        = acc * (10 ^ w * 10) + (10 * (n / 10) + n % 10) := by ring
      _ = acc * 10 ^ (w + 1) + n := by rw [hdm, ← hpow]

theorem padDec_length (w : Nat) : ∀ n, (padDec w n).length = w := by
  induction w with
  | zero => intro n; rfl
  | succ w ih => intro n; simp [padDec, ih]

theorem natDecCharsAux_spec (fuel : Nat) :
    ∀ n acc, n ≤ fuel →
      decDigitsAux (natDecCharsAux fuel n) acc =
        some (acc * 10 ^ (natDecCharsAux fuel n).length + n) := by
  induction fuel with
  | zero =>
    intro n acc h
    interval_cases n
    simp [natDecCharsAux, decDigitsAux, digitVal_digitChr (show 0 % 10 < 10 by norm_num)]
  | succ fuel ih =>
    intro n acc h
    by_cases h10 : n < 10
    · simp [natDecCharsAux, h10, decDigitsAux, digitVal_digitChr h10]
    · have hdiv : n / 10 ≤ fuel := by omega
      have hm : n % 10 < 10 := Nat.mod_lt _ (by norm_num)
      rw [natDecCharsAux, if_neg h10, decDigitsAux_append, ih (n / 10) acc hdiv]
      simp only [decDigitsAux, digitVal_digitChr hm, Option.some_bind, List.length_append,
        List.length_cons, List.length_nil]
      congr 1
      set L := (natDecCharsAux fuel (n / 10)).length with hL
      have hdm : 10 * (n / 10) + n % 10 = n := by omega
      have hpow : (10 : Nat) ^ (L + (0 + 1)) = 10 ^ L * 10 := by ring
      calc (acc * 10 ^ L + n / 10) * 10 + n % 10
          = acc * (10 ^ L * 10) + (10 * (n / 10) + n % 10) := by ring
        _ = acc * 10 ^ (L + (0 + 1)) + n := by rw [hdm, ← hpow]

theorem natDecCharsAux_ne_nil (fuel n : Nat) : natDecCharsAux fuel n ≠ [] := by
  cases fuel with
  | zero => simp [natDecCharsAux]
  | succ fuel =>
    rw [natDecCharsAux]
    split <;> simp

theorem natDecCharsAux_head (fuel : Nat) :
    ∀ n, ∃ d t, d < 10 ∧ natDecCharsAux fuel n = digitChr d :: t := by
  induction fuel with
  | zero =>
    intro n
    exact ⟨n % 10, [], Nat.mod_lt _ (by norm_num), rfl⟩
  | succ fuel ih =>
    intro n
    by_cases h10 : n < 10
    · exact ⟨n, [], h10, by simp [natDecCharsAux, h10]⟩
    · obtain ⟨d, t, hd, ht⟩ := ih (n / 10)
      exact ⟨d, t ++ [digitChr (n % 10)], hd, by simp [natDecCharsAux, h10, ht]⟩

theorem natDecCharsAux_digits (fuel : Nat) :
    ∀ n c, c ∈ natDecCharsAux fuel n → ∃ d, d < 10 ∧ c = digitChr d := by
  induction fuel with
  | zero =>
    intro n c hc
    simp [natDecCharsAux] at hc
    exact ⟨n % 10, Nat.mod_lt _ (by norm_num), hc⟩
  | succ fuel ih =>
    intro n c hc
    rw [natDecCharsAux] at hc
    by_cases h10 : n < 10
    · rw [if_pos h10] at hc
      simp at hc
      exact ⟨n, h10, hc⟩
    · rw [if_neg h10] at hc
      simp at hc
      rcases hc with hc | hc
      · exact ih _ _ hc
      · exact ⟨n % 10, Nat.mod_lt _ (by norm_num), hc⟩

theorem decDigitsVal_natRepr (n : Nat) : decDigitsVal (natRepr n).data = some n := by
  have hne := natDecCharsAux_ne_nil n n
  have hspec := natDecCharsAux_spec n n 0 le_rfl
  simp only [natRepr, decDigitsVal]
  rw [if_neg (by simpa using hne)]
  simpa using hspec

theorem parseGoUint_natRepr {n : Nat} (h : n < 2 ^ 64) : parseGoUint (natRepr n) = some n := by
  rw [parseGoUint]
  simp only [decDigitsVal_natRepr n, Option.some_bind, Option.bind_eq_bind]
  norm_num
  omega

theorem natRepr_data (n : Nat) : (natRepr n).data = natDecCharsAux n n := rfl

theorem parseGoInt_intRepr {i : Int} (h1 : -(2 ^ 63) ≤ i) (h2 : i < 2 ^ 63) :
    parseGoInt (intRepr i) = some i := by
  have hval : decDigitsVal (natDecCharsAux i.natAbs i.natAbs) = some i.natAbs :=
    decDigitsVal_natRepr i.natAbs
  by_cases hneg : i < 0
  · have hdata : (intRepr i).data = '-' :: natDecCharsAux i.natAbs i.natAbs := by
      simp [intRepr, hneg, String.data_append, natRepr_data]
    rw [parseGoInt, hdata]
    norm_num
    simp only [hval]
    rw [if_pos (by omega : i.natAbs ≤ 9223372036854775808)]
    simp only [Option.some.injEq]
    omega
  · obtain ⟨d, t, hd, ht⟩ := natDecCharsAux_head i.natAbs i.natAbs
    obtain ⟨hds, hps, _⟩ := digitChr_not_sign hd
    have hdata : (intRepr i).data = digitChr d :: t := by
      simp [intRepr, hneg, natRepr_data, ht]
    have hval2 : decDigitsVal (digitChr d :: t) = some i.natAbs := by rw [← ht]; exact hval
    rw [parseGoInt, hdata]
    simp only [if_neg hds, if_neg hps, hval2]
    norm_num
    omega

end Formulate

namespace Formulate

/-! ### Lemmas: the fixed date-time layout and decimal floats invert -/

theorem parse2_digitChr {a b : Nat} (ha : a < 10) (hb : b < 10) :
    parse2 (digitChr a) (digitChr b) = some (a * 10 + b) := by
  simp [parse2, digitVal_digitChr ha, digitVal_digitChr hb]

theorem parse2_mods (a b : Nat) :
    parse2 (digitChr (a % 10)) (digitChr (b % 10)) = some (a % 10 * 10 + b % 10) :=
  parse2_digitChr (Nat.mod_lt _ (by norm_num)) (Nat.mod_lt _ (by norm_num))

theorem daysInMonth_le (y m : Nat) : daysInMonth y m ≤ 31 := by
  rw [daysInMonth]
  split <;> [skip; split] <;> [split; skip; skip] <;> norm_num

theorem parseGoTime_formatGoTime (t : GoTime) (h : t.valid) :
    parseGoTime (formatGoTime t) = some { t with sec := 0 } := by
  obtain ⟨hy, hm1, hm2, hd1, hd2, hh, hmin⟩ := h
  have hchars : (formatGoTime t).data =
      [digitChr (t.year / 10 / 10 / 10 % 10), digitChr (t.year / 10 / 10 % 10),
       digitChr (t.year / 10 % 10), digitChr (t.year % 10),
       '-', digitChr (t.month / 10 % 10), digitChr (t.month % 10),
       '-', digitChr (t.day / 10 % 10), digitChr (t.day % 10),
       'T', digitChr (t.hour / 10 % 10), digitChr (t.hour % 10),
       ':', digitChr (t.minute / 10 % 10), digitChr (t.minute % 10)] := by
    simp [formatGoTime, pad4, pad2, padDec]
  rw [parseGoTime, hchars]
  simp only [parse2_mods, Option.some_bind, Option.bind_eq_bind]
  norm_num
  have hD31 : t.day ≤ 31 := le_trans hd2 (daysInMonth_le _ _)
  have hY : (t.year / 10 / 10 / 10 % 10 * 10 + t.year / 10 / 10 % 10) * 100 +
      (t.year / 10 % 10 * 10 + t.year % 10) = t.year := by omega
  have hM : t.month / 10 % 10 * 10 + t.month % 10 = t.month := by omega
  have hD : t.day / 10 % 10 * 10 + t.day % 10 = t.day := by omega
  have hH : t.hour / 10 % 10 * 10 + t.hour % 10 = t.hour := by omega
  have hMI : t.minute / 10 % 10 * 10 + t.minute % 10 = t.minute := by omega
  rw [hY, hM, hD, hH, hMI]
  exact ⟨⟨hm1, hm2, hd1, hd2, hh, hmin⟩, rfl, rfl, rfl, rfl, rfl⟩

theorem splitChar_ne_nil (sep : Char) (xs : List Char) : splitChar sep xs ≠ [] := by
  cases xs with
  | nil => simp [splitChar]
  | cons c rest =>
    rw [splitChar]
    cases hs : splitChar sep rest with
    | nil => simp
    | cons s ss =>
      simp only []
      split <;> simp

theorem splitChar_no_sep {sep : Char} {xs : List Char} (h : ∀ c ∈ xs, c ≠ sep) :
    splitChar sep xs = [xs] := by
  induction xs with
  | nil => rfl
  | cons c rest ih =>
    have hc : c ≠ sep := h c (by simp)
    rw [splitChar, ih fun d hd => h d (by simp [hd])]
    simp [hc]

theorem splitChar_append_sep {sep : Char} {xs : List Char} (ys : List Char)
    (h : ∀ c ∈ xs, c ≠ sep) :
    splitChar sep (xs ++ sep :: ys) = xs :: splitChar sep ys := by
  induction xs with
  | nil =>
    simp only [List.nil_append, splitChar]
    rcases hs : splitChar sep ys with _ | ⟨s, ss⟩
    · exact absurd hs (splitChar_ne_nil sep ys)
    · simp
  | cons c rest ih =>
    have hc : c ≠ sep := h c (by simp)
    rw [List.cons_append, splitChar, ih fun d hd => h d (by simp [hd])]
    simp [hc]

theorem padDec_digits (w : Nat) : ∀ n c, c ∈ padDec w n → ∃ d, d < 10 ∧ c = digitChr d := by
  induction w with
  | zero => intro n c hc; simp [padDec] at hc
  | succ w ih =>
    intro n c hc
    rw [padDec] at hc
    simp at hc
    rcases hc with hc | hc
    · exact ih _ _ hc
    · exact ⟨n % 10, Nat.mod_lt _ (by norm_num), hc⟩

theorem natRepr_no_dot (n : Nat) : ∀ c ∈ (natRepr n).data, c ≠ '.' := by
  intro c hc
  obtain ⟨d, hd, rfl⟩ := natDecCharsAux_digits n n c hc
  exact (digitChr_not_sign hd).2.2

theorem padDec_no_dot (w n : Nat) : ∀ c ∈ padDec w n, c ≠ '.' := by
  intro c hc
  obtain ⟨d, hd, rfl⟩ := padDec_digits w n c hc
  exact (digitChr_not_sign hd).2.2

theorem decDigitsVal_append_padDec {hi : Nat} (e lo : Nat) (hlo : lo < 10 ^ e) :
    decDigitsVal ((natRepr hi).data ++ padDec e lo) = some (hi * 10 ^ e + lo) := by
  have hne := natDecCharsAux_ne_nil hi hi
  have hspec := natDecCharsAux_spec hi hi 0 le_rfl
  rw [decDigitsVal, if_neg (by simp [natRepr_data]; exact fun h => absurd h hne)]
  rw [decDigitsAux_append]
  have : decDigitsAux (natRepr hi).data 0 = some hi := by
    have := decDigitsVal_natRepr hi
    rw [decDigitsVal, if_neg (by simp [natRepr_data]; exact fun h => absurd h hne)] at this
    exact this
  rw [this, Option.some_bind, decDigitsAux_padDec e lo _ hlo]

end Formulate

namespace Formulate

theorem parseGoFloat_formatDec (d : Dec) : parseGoFloat (formatDec d) = some d := by
  obtain ⟨m, e⟩ := d
  by_cases he : e = 0
  · subst he
    by_cases hneg : m < 0
    · have hdata : (formatDec ⟨m, 0⟩).data = '-' :: (natRepr m.natAbs).data := by
        simp [formatDec, hneg, String.data_append]
      rw [parseGoFloat, hdata]
      norm_num
      rw [splitChar_no_sep (natRepr_no_dot m.natAbs)]
      simp only [decDigitsVal_natRepr, Option.some_bind, Option.bind_eq_bind]
      simp only [Option.pure_def, Option.some.injEq, Dec.mk.injEq]
      exact ⟨by omega, trivial⟩
    · obtain ⟨dd, t, hd, ht⟩ := natDecCharsAux_head m.natAbs m.natAbs
      obtain ⟨hds, hps, _⟩ := digitChr_not_sign hd
      have hdata : (formatDec ⟨m, 0⟩).data = digitChr dd :: t := by
        simp [formatDec, hneg, natRepr_data, ht, String.data_append]
      rw [parseGoFloat, hdata]
      simp only [if_neg hds, if_neg hps]
      rw [show (digitChr dd :: t) = (natRepr m.natAbs).data from by rw [natRepr_data, ht]]
      rw [splitChar_no_sep (natRepr_no_dot m.natAbs)]
      simp only [decDigitsVal_natRepr, Option.some_bind, Option.bind_eq_bind]
      simp only [Bool.false_eq_true, if_false, Option.pure_def, Option.some.injEq, Dec.mk.injEq]
      exact ⟨by omega, trivial⟩
  · have hpow : 0 < 10 ^ e := Nat.pos_pow_of_pos e (by norm_num)
    have hlo : m.natAbs % 10 ^ e < 10 ^ e := Nat.mod_lt _ hpow
    have hsplit :
        splitChar '.' ((natRepr (m.natAbs / 10 ^ e)).data ++ '.' :: padDec e (m.natAbs % 10 ^ e)) =
          [(natRepr (m.natAbs / 10 ^ e)).data, padDec e (m.natAbs % 10 ^ e)] := by
      rw [splitChar_append_sep _ (natRepr_no_dot _), splitChar_no_sep (padDec_no_dot e _)]
    have hval := @decDigitsVal_append_padDec (m.natAbs / 10 ^ e) e (m.natAbs % 10 ^ e) hlo
    have hdm : m.natAbs / 10 ^ e * 10 ^ e + m.natAbs % 10 ^ e = m.natAbs := by
      rw [Nat.mul_comm]
      exact Nat.div_add_mod m.natAbs (10 ^ e)
    rw [hdm] at hval
    by_cases hneg : m < 0
    · have hdata : (formatDec ⟨m, e⟩).data =
          '-' :: ((natRepr (m.natAbs / 10 ^ e)).data ++ '.' :: padDec e (m.natAbs % 10 ^ e)) := by
        simp [formatDec, hneg, he, String.data_append]
      rw [parseGoFloat, hdata]
      norm_num
      rw [hsplit]
      simp only [hval, Option.some_bind, Option.bind_eq_bind]
      simp only [Option.pure_def, Option.some.injEq, Dec.mk.injEq]
      exact ⟨by omega, padDec_length e _⟩
    · obtain ⟨dd, t, hd, ht⟩ := natDecCharsAux_head (m.natAbs / 10 ^ e) (m.natAbs / 10 ^ e)
      obtain ⟨hds, hps, _⟩ := digitChr_not_sign hd
      have hdata : (formatDec ⟨m, e⟩).data =
          digitChr dd :: (t ++ '.' :: padDec e (m.natAbs % 10 ^ e)) := by
        simp [formatDec, hneg, he, String.data_append, natRepr_data, ht]
      rw [parseGoFloat, hdata]
      simp only [if_neg hds, if_neg hps]
      rw [show (digitChr dd :: (t ++ '.' :: padDec e (m.natAbs % 10 ^ e))) =
          ((natRepr (m.natAbs / 10 ^ e)).data ++ '.' :: padDec e (m.natAbs % 10 ^ e)) from by
        rw [natRepr_data, ht]; simp]
      rw [hsplit]
      simp only [hval, Option.some_bind, Option.bind_eq_bind]
      simp only [Bool.false_eq_true, if_false, Option.pure_def, Option.some.injEq, Dec.mk.injEq]
      exact ⟨by omega, padDec_length e _⟩

end Formulate

namespace Formulate

/-! ### Lemmas: keys, form lookup, validation plumbing -/

theorem FormElementName_eq (pfx key : String) (h : 2 < (strSplit key '.').length) :
    FormElementName pfx key = pfx ++ formElementName key := by
  simp only [FormElementName, formElementName]
  rw [if_pos h]

theorem FormElementName_empty (key : String) (h : 2 < (strSplit key '.').length) :
    FormElementName "" key = formElementName key := by
  rw [FormElementName_eq "" key h]
  simp

theorem Form.get_nil (k : String) : Form.get [] k = [] := rfl

theorem Form.get_append (a b : Form) (k : String) :
    Form.get (a ++ b) k = Form.get a k ++ Form.get b k := by
  simp [Form.get, List.filter_append]

theorem Form.get_of_not_mem {F : Form} {k : String} (h : ∀ p ∈ F, p.1 ≠ k) :
    Form.get F k = [] := by
  simp only [Form.get, List.map_eq_nil_iff, List.filter_eq_nil_iff]
  intro p hp
  simpa using h p hp

theorem Form.get_of_all_key {l : Form} {k : String} (h : ∀ p ∈ l, p.1 = k) :
    Form.get l k = l.map Prod.snd := by
  unfold Form.get
  congr 1
  induction l with
  | nil => rfl
  | cons p rest ih =>
    have hp : p.1 = k := h p (by simp)
    rw [List.filter_cons_of_pos (by simpa using hp)]
    rw [ih fun q hq => h q (by simp [hq])]

theorem passedValidationAux_fst (h : HTTPDecoder) (key : String) (value : DynVal) :
    ∀ (vs : List ValidatorFun) (ok : Bool) (st1 st2 : DecoderSt),
      (h.passedValidationAux key value vs ok st1).1 =
        (h.passedValidationAux key value vs ok st2).1 := by
  intro vs
  induction vs with
  | nil => intro ok st1 st2; rfl
  | cons vf rest ih =>
    intro ok st1 st2
    rw [HTTPDecoder.passedValidationAux, HTTPDecoder.passedValidationAux]
    by_cases hvf : (vf value).1
    · rw [if_pos hvf, if_pos hvf]; exact ih ok _ _
    · rw [if_neg hvf, if_neg hvf]; exact ih false _ _

theorem passedValidation_nil (h : HTTPDecoder) (key : String) (value : DynVal)
    (st : DecoderSt) : h.passedValidation key value [] st = (true, st) := rfl

theorem setIfPassed_nil (h : HTTPDecoder) (key : String) (dyn : DynVal)
    (st : DecoderSt) (parsed fallback : Value) :
    h.setIfPassed key dyn [] st parsed fallback = .ok (parsed, st) := rfl

theorem setIfPassed_valuePart (h : HTTPDecoder) (key : String) (dyn : DynVal)
    (vs : List ValidatorFun) (st1 st2 : DecoderSt) (parsed fallback : Value) :
    valuePart (h.setIfPassed key dyn vs st1 parsed fallback) =
      valuePart (h.setIfPassed key dyn vs st2 parsed fallback) := by
  rw [HTTPDecoder.setIfPassed, HTTPDecoder.setIfPassed]
  have hfst := passedValidationAux_fst h key dyn vs true st1 st2
  simp only [HTTPDecoder.passedValidation]
  by_cases hb : (h.passedValidationAux key dyn vs true st1).1
  · rw [if_pos hb, if_pos (hfst ▸ hb)]
    simp [valuePart, Except.map]
  · rw [if_neg hb, if_neg (hfst ▸ hb)]
    simp [valuePart, Except.map]

theorem setIfPassed_isOk (h : HTTPDecoder) (key : String) (dyn : DynVal)
    (vs : List ValidatorFun) (st : DecoderSt) (parsed fallback : Value) :
    ∃ w st', h.setIfPassed key dyn vs st parsed fallback = .ok (w, st') := by
  rw [HTTPDecoder.setIfPassed]
  by_cases hb : (h.passedValidation key dyn vs st).1
  · exact ⟨parsed, (h.passedValidation key dyn vs st).2, by simp [hb]⟩
  · exact ⟨fallback, (h.passedValidation key dyn vs st).2, by simp [hb]⟩

end Formulate

namespace Formulate

mutual
/-- The decoded value (and any returned error) of one subtree does not
depend on the incoming error state: validation failures recorded earlier
in the walk change only the counter and the store, never how the
remaining fields decode. -/
theorem decode_state_indep (h : HTTPDecoder) (v : Value) (key : String)
    (vs : List ValidatorFun) (st1 st2 : DecoderSt) :
    valuePart (h.decode v key vs st1) = valuePart (h.decode v key vs st2) := by
  cases v with
  | boolNumV n =>
    cases hv : h.getFormValues key with
    | nil => simp [HTTPDecoder.decode, hv, valuePart, Except.map]
    | cons a rest =>
      simp only [HTTPDecoder.decode, hv]
      exact setIfPassed_valuePart h key _ vs st1 st2 _ _
  | timeV t =>
    cases hv : h.getFormValues key with
    | nil =>
      simp only [HTTPDecoder.decode, hv]
      exact setIfPassed_valuePart h key _ vs st1 st2 _ _
    | cons a rest =>
      simp only [HTTPDecoder.decode, hv]
      cases parseGoTime a with
      | none => rfl
      | some tt => exact setIfPassed_valuePart h key _ vs st1 st2 _ _
  | structV fs =>
    simp only [HTTPDecoder.decode]
    have hfs := decodeFields_state_indep h fs key st1 st2
    rcases hr1 : h.decodeFields fs key st1 with e1 | ⟨fs1, stA⟩ <;>
      rcases hr2 : h.decodeFields fs key st2 with e2 | ⟨fs2, stB⟩ <;>
      rw [hr1, hr2] at hfs <;> simp [fieldsPart, Except.map] at hfs <;>
      simp [valuePart, Except.map, hfs]
  | str s0 =>
    cases hv : h.getFormValues key with
    | nil => simp [HTTPDecoder.decode, hv, valuePart, Except.map]
    | cons a rest =>
      simp only [HTTPDecoder.decode, hv]
      exact setIfPassed_valuePart h key _ vs st1 st2 _ _
  | selectV cur opts =>
    cases hv : h.getFormValues key with
    | nil => simp [HTTPDecoder.decode, hv, valuePart, Except.map]
    | cons a rest =>
      simp only [HTTPDecoder.decode, hv]
      exact setIfPassed_valuePart h key _ vs st1 st2 _ _
  | radioV cur opts =>
    cases hv : h.getFormValues key with
    | nil => simp [HTTPDecoder.decode, hv, valuePart, Except.map]
    | cons a rest =>
      simp only [HTTPDecoder.decode, hv]
      exact setIfPassed_valuePart h key _ vs st1 st2 _ _
  | floatV f0 =>
    cases hv : h.getFormValues key with
    | nil => simp [HTTPDecoder.decode, hv, valuePart, Except.map]
    | cons a rest =>
      simp only [HTTPDecoder.decode, hv]
      cases (if a = "" then some (⟨0, 0⟩ : Dec) else parseGoFloat a) with
      | none => rfl
      | some f => exact setIfPassed_valuePart h key _ vs st1 st2 _ _
  | intV i0 =>
    cases hv : h.getFormValues key with
    | nil => simp [HTTPDecoder.decode, hv, valuePart, Except.map]
    | cons a rest =>
      simp only [HTTPDecoder.decode, hv]
      cases (if a = "" then some (0 : Int) else parseGoInt a) with
      | none => rfl
      | some i => exact setIfPassed_valuePart h key _ vs st1 st2 _ _
  | uintV n0 =>
    cases hv : h.getFormValues key with
    | nil => simp [HTTPDecoder.decode, hv, valuePart, Except.map]
    | cons a rest =>
      simp only [HTTPDecoder.decode, hv]
      cases (if a = "" then some (0 : Nat) else parseGoUint a) with
      | none => rfl
      | some n => exact setIfPassed_valuePart h key _ vs st1 st2 _ _
  | boolV b0 =>
    cases hv : h.getFormValues key with
    | nil => simp [HTTPDecoder.decode, hv, valuePart, Except.map]
    | cons a rest =>
      simp only [HTTPDecoder.decode, hv]
      by_cases hon : a == "on"
      · rw [if_pos hon, if_pos hon]; simp [valuePart, Except.map]
      · rw [if_neg hon, if_neg hon]
        cases (if a = "" then some (0 : Int) else parseGoInt a) with
        | none => rfl
        | some i => exact setIfPassed_valuePart h key _ vs st1 st2 _ _
  | strListV xs =>
    cases hv : h.getFormValues key with
    | nil => simp [HTTPDecoder.decode, hv, valuePart, Except.map]
    | cons a rest =>
      simp only [HTTPDecoder.decode, hv]
      by_cases hemp : a = ""
      · rw [if_pos hemp, if_pos hemp]; simp [valuePart, Except.map]
      · rw [if_neg hemp, if_neg hemp]
        cases jsonParseStrList a with
        | none => rfl
        | some ys => rfl
  termination_by structural v
/-- `decode_state_indep` lifted over a field list. -/
theorem decodeFields_state_indep (h : HTTPDecoder) (fs : Fields) (key : String)
    (st1 st2 : DecoderSt) :
    fieldsPart (h.decodeFields fs key st1) = fieldsPart (h.decodeFields fs key st2) := by
  cases fs with
  | nil => simp [HTTPDecoder.decodeFields, fieldsPart, Except.map]
  | cons n t v rest =>
    rw [HTTPDecoder.decodeFields, HTTPDecoder.decodeFields]
    by_cases hh : (StructField.Hidden (α := DynVal) ⟨n, t, []⟩ h.showConditions)
    · rw [if_pos hh, if_pos hh]
      have hrest := decodeFields_state_indep h rest key st1 st2
      rcases hr1 : h.decodeFields rest key st1 with e1 | ⟨fs1, stA⟩ <;>
        rcases hr2 : h.decodeFields rest key st2 with e2 | ⟨fs2, stB⟩ <;>
        rw [hr1, hr2] at hrest <;> simp [fieldsPart, Except.map] at hrest <;>
        simp [fieldsPart, Except.map, hrest]
    · rw [if_neg hh, if_neg hh]
      have hv := decode_state_indep h v (key ++ fieldSeparator ++ n)
        (h.getValidators (StructField.Validators (α := DynVal) ⟨n, t, []⟩)) st1 st2
      rcases hr1 : h.decode v (key ++ fieldSeparator ++ n) _ st1 with e1 | ⟨v1, stA⟩ <;>
        rcases hr2 : h.decode v (key ++ fieldSeparator ++ n) _ st2 with e2 | ⟨v2, stB⟩ <;>
        rw [hr1, hr2] at hv <;> simp [valuePart, Except.map] at hv
      · simp [hv]
      · have hrest := decodeFields_state_indep h rest key stA stB
        rcases hs1 : h.decodeFields rest key stA with e1 | ⟨fs1, stC⟩ <;>
          rcases hs2 : h.decodeFields rest key stB with e2 | ⟨fs2, stD⟩ <;>
          rw [hs1, hs2] at hrest <;> simp [fieldsPart, Except.map] at hrest <;>
          simp [fieldsPart, Except.map, hrest, hv, hs1, hs2]
  termination_by structural fs
end

end Formulate

namespace Formulate

/-! ### Lemmas: absent posted values leave concrete leaves untouched -/

theorem decode_concreteLeaf_absent (h : HTTPDecoder) (v : Value) (key : String)
    (vs : List ValidatorFun) (st : DecoderSt) (hleaf : concreteLeaf v = true)
    (habs : h.getFormValues key = []) :
    h.decode v key vs st = .ok (v, st) := by
  cases v <;> simp [concreteLeaf] at hleaf <;> simp [HTTPDecoder.decode, habs]

mutual
theorem agreesPrim_refl (v : Value) : agreesPrim v v = true := by
  cases v with
  | structV fs => simpa [agreesPrim] using agreesPrimF_refl fs
  | _ => simp [agreesPrim]
  termination_by structural v
theorem agreesPrimF_refl (fs : Fields) : agreesPrimF fs fs = true := by
  cases fs with
  | nil => rfl
  | cons n t v rest =>
    simp only [agreesPrimF, Bool.and_eq_true]
    exact ⟨⟨⟨by simp, by simp⟩, agreesPrim_refl v⟩, agreesPrimF_refl rest⟩
  termination_by structural fs
end

theorem setIfPassed_eq_or (h : HTTPDecoder) (key : String) (dyn : DynVal)
    (vs : List ValidatorFun) (st : DecoderSt) (parsed fallback : Value) :
    h.setIfPassed key dyn vs st parsed fallback =
        .ok (parsed, (h.passedValidation key dyn vs st).2) ∨
      h.setIfPassed key dyn vs st parsed fallback =
        .ok (fallback, (h.passedValidation key dyn vs st).2) := by
  rw [HTTPDecoder.setIfPassed]
  by_cases hb : (h.passedValidation key dyn vs st).1 <;> simp [hb]

mutual
/-- With an empty posted-value set, whatever the decoder returns agrees
with the original record on every primitive leaf (time leaves are zeroed,
which `agreesPrim` does not constrain). -/
theorem decode_empty_agrees (h : HTTPDecoder) (v : Value) (key : String)
    (vs : List ValidatorFun) (st : DecoderSt) (v' : Value) (st' : DecoderSt)
    (hform : h.form = []) (hok : h.decode v key vs st = .ok (v', st')) :
    agreesPrim v v' = true := by
  have hgv : h.getFormValues key = [] := by
    simp [HTTPDecoder.getFormValues, hform, Form.get]
  cases v with
  | boolNumV n => rw [HTTPDecoder.decode, hgv] at hok; exact absurd hok (by simp)
  | timeV t =>
    rw [HTTPDecoder.decode, hgv] at hok
    rcases setIfPassed_eq_or h key (.timeV zeroGoTime) vs st (.timeV zeroGoTime) (.timeV t) with
      he | he <;> rw [he] at hok <;>
      simp only [Except.ok.injEq, Prod.mk.injEq] at hok <;>
      rw [← hok.1] <;> simp [agreesPrim]
  | structV fs =>
    rw [HTTPDecoder.decode] at hok
    rcases hr : h.decodeFields fs key st with e | ⟨fs2, stB⟩ <;> rw [hr] at hok
    · exact absurd hok (by simp)
    · simp only [Except.ok.injEq, Prod.mk.injEq] at hok
      rw [← hok.1]
      simpa [agreesPrim] using decodeFields_empty_agrees h fs key st fs2 stB hform hr
  | str s0 =>
    rw [decode_concreteLeaf_absent h _ key vs st (by simp [concreteLeaf]) hgv] at hok
    simp only [Except.ok.injEq, Prod.mk.injEq] at hok
    rw [← hok.1]; exact agreesPrim_refl _
  | intV i0 =>
    rw [decode_concreteLeaf_absent h _ key vs st (by simp [concreteLeaf]) hgv] at hok
    simp only [Except.ok.injEq, Prod.mk.injEq] at hok
    rw [← hok.1]; exact agreesPrim_refl _
  | uintV n0 =>
    rw [decode_concreteLeaf_absent h _ key vs st (by simp [concreteLeaf]) hgv] at hok
    simp only [Except.ok.injEq, Prod.mk.injEq] at hok
    rw [← hok.1]; exact agreesPrim_refl _
  | floatV f0 =>
    rw [decode_concreteLeaf_absent h _ key vs st (by simp [concreteLeaf]) hgv] at hok
    simp only [Except.ok.injEq, Prod.mk.injEq] at hok
    rw [← hok.1]; exact agreesPrim_refl _
  | boolV b0 =>
    rw [decode_concreteLeaf_absent h _ key vs st (by simp [concreteLeaf]) hgv] at hok
    simp only [Except.ok.injEq, Prod.mk.injEq] at hok
    rw [← hok.1]; exact agreesPrim_refl _
  | selectV cur opts =>
    rw [decode_concreteLeaf_absent h _ key vs st (by simp [concreteLeaf]) hgv] at hok
    simp only [Except.ok.injEq, Prod.mk.injEq] at hok
    rw [← hok.1]; exact agreesPrim_refl _
  | radioV cur opts =>
    rw [decode_concreteLeaf_absent h _ key vs st (by simp [concreteLeaf]) hgv] at hok
    simp only [Except.ok.injEq, Prod.mk.injEq] at hok
    rw [← hok.1]; exact agreesPrim_refl _
  | strListV xs =>
    rw [decode_concreteLeaf_absent h _ key vs st (by simp [concreteLeaf]) hgv] at hok
    simp only [Except.ok.injEq, Prod.mk.injEq] at hok
    rw [← hok.1]; exact agreesPrim_refl _
  termination_by structural v
/-- `decode_empty_agrees` over a field list. -/
theorem decodeFields_empty_agrees (h : HTTPDecoder) (fs : Fields) (key : String)
    (st : DecoderSt) (fs' : Fields) (st' : DecoderSt)
    (hform : h.form = []) (hok : h.decodeFields fs key st = .ok (fs', st')) :
    agreesPrimF fs fs' = true := by
  cases fs with
  | nil =>
    rw [HTTPDecoder.decodeFields] at hok
    simp only [Except.ok.injEq, Prod.mk.injEq] at hok
    rw [← hok.1]; rfl
  | cons n t v rest =>
    rw [HTTPDecoder.decodeFields] at hok
    by_cases hh : (StructField.Hidden (α := DynVal) ⟨n, t, []⟩ h.showConditions)
    · rw [if_pos hh] at hok
      rcases hr : h.decodeFields rest key st with e | ⟨rest2, stB⟩ <;> rw [hr] at hok
      · exact absurd hok (by simp)
      · simp only [Except.ok.injEq, Prod.mk.injEq] at hok
        rw [← hok.1]
        simp only [agreesPrimF, Bool.and_eq_true]
        exact ⟨⟨⟨by simp, by simp⟩, agreesPrim_refl v⟩,
          decodeFields_empty_agrees h rest key st rest2 stB hform hr⟩
    · rw [if_neg hh] at hok
      rcases hr : h.decode v (key ++ fieldSeparator ++ n)
          (h.getValidators (StructField.Validators (α := DynVal) ⟨n, t, []⟩)) st with
        e | ⟨v2, stB⟩ <;> rw [hr] at hok
      · exact absurd hok (by simp)
      · dsimp only at hok
        rcases hs : h.decodeFields rest key stB with e | ⟨rest2, stC⟩ <;> rw [hs] at hok
        · exact absurd hok (by simp)
        · simp only [Except.ok.injEq, Prod.mk.injEq] at hok
          rw [← hok.1]
          simp only [agreesPrimF, Bool.and_eq_true]
          exact ⟨⟨⟨by simp, by simp⟩,
            decode_empty_agrees h v (key ++ fieldSeparator ++ n) _ st v2 stB hform hr⟩,
            decodeFields_empty_agrees h rest key stB rest2 stC hform hs⟩
  termination_by structural fs
end

end Formulate

namespace Formulate

/-! ### Lemmas: hidden fields, malformed values, error propagation -/

theorem recurse_hidden (e : HTMLEncoder) (store : MemStore) (v : Value) (key : String)
    (field : StructField DynVal) (hh : field.Hidden e.showConditions = true) :
    e.recurse store v key field = [] := by
  cases v <;> simp [HTMLEncoder.recurse, BuildField, hh]

theorem recurseFields_filterVisible (e : HTMLEncoder) (store : MemStore) (fs : Fields)
    (key : String) :
    e.recurseFields store fs key =
      e.recurseFields store (fs.filterVisible e.showConditions) key := by
  cases fs with
  | nil => rfl
  | cons n t v rest =>
    rw [HTMLEncoder.recurseFields, Fields.filterVisible]
    by_cases hh : (StructField.Hidden (α := DynVal) ⟨n, t, []⟩ e.showConditions)
    · rw [if_pos hh]
      have hzero : e.recurse store v (key ++ fieldSeparator ++ n)
          ⟨n, t, store.GetValidationErrors
            (FormElementName e.namePfx (key ++ fieldSeparator ++ n))⟩ = [] :=
        recurse_hidden e store v _ _ hh
      rw [hzero, List.nil_append]
      exact recurseFields_filterVisible e store rest key
    · rw [if_neg hh, HTMLEncoder.recurseFields]
      rw [← recurseFields_filterVisible e store rest key]
  termination_by structural fs

theorem decodeFields_hidden_untouched (h : HTTPDecoder) (fs : Fields) (key : String)
    (st : DecoderSt) (fs' : Fields) (st' : DecoderSt) (i : Nat)
    (n : String) (t : Tags) (v : Value)
    (hok : h.decodeFields fs key st = .ok (fs', st'))
    (hget : fs.get? i = some (n, t, v))
    (hh : StructField.Hidden (α := DynVal) ⟨n, t, []⟩ h.showConditions = true) :
    fs'.get? i = some (n, t, v) := by
  cases fs with
  | nil => simp [Fields.get?] at hget
  | cons n0 t0 v0 rest =>
    rw [HTTPDecoder.decodeFields] at hok
    by_cases hh0 : (StructField.Hidden (α := DynVal) ⟨n0, t0, []⟩ h.showConditions)
    · rw [if_pos hh0] at hok
      rcases hr : h.decodeFields rest key st with e | ⟨rest2, stB⟩ <;> rw [hr] at hok
      · exact absurd hok (by simp)
      · simp only [Except.ok.injEq, Prod.mk.injEq] at hok
        rw [← hok.1]
        cases i with
        | zero => simpa [Fields.get?] using hget
        | succ j =>
          simp only [Fields.get?] at hget ⊢
          exact decodeFields_hidden_untouched h rest key st rest2 stB j n t v hr hget hh
    · rw [if_neg hh0] at hok
      rcases hr : h.decode v0 (key ++ fieldSeparator ++ n0)
          (h.getValidators (StructField.Validators (α := DynVal) ⟨n0, t0, []⟩)) st with
        e | ⟨v2, stB⟩ <;> rw [hr] at hok
      · exact absurd hok (by simp)
      · dsimp only at hok
        rcases hs : h.decodeFields rest key stB with e | ⟨rest2, stC⟩ <;> rw [hs] at hok
        · exact absurd hok (by simp)
        · simp only [Except.ok.injEq, Prod.mk.injEq] at hok
          rw [← hok.1]
          cases i with
          | zero =>
            simp only [Fields.get?] at hget
            obtain ⟨rfl, rfl, rfl⟩ := by simpa using hget
            exact absurd hh (by simp [hh0])
          | succ j =>
            simp only [Fields.get?] at hget ⊢
            exact decodeFields_hidden_untouched h rest key stB rest2 stC j n t v hs hget hh
  termination_by structural fs

theorem decode_malformed (h : HTTPDecoder) (v : Value) (key : String)
    (vs : List ValidatorFun) (st : DecoderSt) (fv : String) (vrest : List String)
    (hv : h.getFormValues key = fv :: vrest) (hm : malformedFor v fv = true) :
    ∃ msg, h.decode v key vs st = .error (.fail msg) := by
  cases v with
  | intV i0 =>
    simp only [malformedFor, Bool.and_eq_true, decide_eq_true_eq, Option.isNone_iff_eq_none] at hm
    exact ⟨_, by rw [HTTPDecoder.decode, hv]; dsimp only; rw [if_neg hm.1, hm.2]⟩
  | uintV n0 =>
    simp only [malformedFor, Bool.and_eq_true, decide_eq_true_eq, Option.isNone_iff_eq_none] at hm
    exact ⟨_, by rw [HTTPDecoder.decode, hv]; dsimp only; rw [if_neg hm.1, hm.2]⟩
  | floatV f0 =>
    simp only [malformedFor, Bool.and_eq_true, decide_eq_true_eq, Option.isNone_iff_eq_none] at hm
    exact ⟨_, by rw [HTTPDecoder.decode, hv]; dsimp only; rw [if_neg hm.1, hm.2]⟩
  | boolV b0 =>
    simp only [malformedFor, Bool.and_eq_true, decide_eq_true_eq, Option.isNone_iff_eq_none] at hm
    refine ⟨_, by
      rw [HTTPDecoder.decode, hv]
      dsimp only
      rw [if_neg (by simpa using hm.1.1), if_neg hm.1.2, hm.2]⟩
  | timeV t0 =>
    simp only [malformedFor, Option.isNone_iff_eq_none] at hm
    exact ⟨_, by rw [HTTPDecoder.decode, hv]; dsimp only; rw [hm]⟩
  | strListV xs =>
    simp only [malformedFor, Bool.and_eq_true, decide_eq_true_eq, Option.isNone_iff_eq_none] at hm
    exact ⟨_, by rw [HTTPDecoder.decode, hv]; dsimp only; rw [if_neg hm.1, hm.2]⟩
  | str s0 => simp [malformedFor] at hm
  | selectV cur opts => simp [malformedFor] at hm
  | radioV cur opts => simp [malformedFor] at hm
  | boolNumV n0 => simp [malformedFor] at hm
  | structV fs => simp [malformedFor] at hm

theorem decodeFields_append (h : HTTPDecoder) (fs1 fs2 : Fields) (key : String)
    (st : DecoderSt) :
    h.decodeFields (fs1.append fs2) key st =
      match h.decodeFields fs1 key st with
      | .error e => .error e
      | .ok (fs1', st') =>
        match h.decodeFields fs2 key st' with
        | .error e => .error e
        | .ok (fs2', st'') => .ok (fs1'.append fs2', st'') := by
  cases fs1 with
  | nil =>
    rw [Fields.append, HTTPDecoder.decodeFields]
    rcases hr : h.decodeFields fs2 key st with e | ⟨fs2', st''⟩ <;> simp [hr, Fields.append]
  | cons n t v rest =>
    rw [Fields.append, HTTPDecoder.decodeFields]
    conv_rhs => rw [HTTPDecoder.decodeFields]
    by_cases hh : (StructField.Hidden (α := DynVal) ⟨n, t, []⟩ h.showConditions)
    · simp only [if_pos hh]
      rw [decodeFields_append h rest fs2 key st]
      rcases hr : h.decodeFields rest key st with e | ⟨r1, s1⟩
      · simp [hr]
      · simp only [hr]
        rcases hs : h.decodeFields fs2 key s1 with e | ⟨r2, s2⟩ <;> simp [hs, Fields.append]
    · simp only [if_neg hh]
      rcases hr : h.decode v (key ++ fieldSeparator ++ n)
          (h.getValidators (StructField.Validators (α := DynVal) ⟨n, t, []⟩)) st with
        e | ⟨v1, s1⟩
      · simp [hr]
      · simp only [hr]
        rw [decodeFields_append h rest fs2 key s1]
        rcases hs : h.decodeFields rest key s1 with e | ⟨r1, s2⟩
        · simp [hs]
        · simp only [hs]
          rcases hu : h.decodeFields fs2 key s2 with e | ⟨r2, s3⟩ <;> simp [hu, Fields.append]
  termination_by structural fs1

end Formulate

namespace Formulate

theorem containsSub_self (n : Node) : containsSub n n = true := by
  cases n <;> simp [containsSub]

theorem containsSubL_ofList (t : Node) (l : List Node) :
    containsSubL t (NodeList.ofList l) = l.any (containsSub t) := by
  induction l with
  | nil => rfl
  | cons n rest ih => simp [NodeList.ofList, containsSubL, ih]

/-! ### The claims -/

/-- C7 (counterexample): the claim that the encoder-exposed key and the
decoder's lookup key always coincide fails as soon as a caller-supplied
prefix is set: `FormElementName` prepends the prefix, while the decoder's
`formElementName` never does. -/
theorem claim_C7_counterexample :
    ¬(FormElementName "f_" "a.b.C" = formElementName "a.b.C") := by decide

/-- C7 (amended): for every field key (which always carries the
two-segment qualified type name plus at least one field name, hence more
than two dotted segments), the exposed form key is the dotted path with
its first two segments stripped, with the encoder's optional prefix
prepended; the decoder's lookup key is the same stripped path without any
prefix, so encoder and decoder derive the same key exactly when the
prefix is empty. -/
theorem claim_C7_key_derivation (pfx key : String)
    (h : 2 < (strSplit key '.').length) :
    FormElementName pfx key = pfx ++ formElementName key ∧
      FormElementName "" key = formElementName key :=
  ⟨FormElementName_eq pfx key h, FormElementName_empty key h⟩

/-- C7 witness. -/
theorem claim_C7_key_derivation_witness :
    2 < (strSplit "pkg.Rec.Address.Postcode" '.').length ∧
      (FormElementName "pre_" "pkg.Rec.Address.Postcode" =
          "pre_" ++ formElementName "pkg.Rec.Address.Postcode" ∧
        FormElementName "" "pkg.Rec.Address.Postcode" =
          formElementName "pkg.Rec.Address.Postcode") :=
  ⟨by decide, claim_C7_key_derivation "pre_" "pkg.Rec.Address.Postcode" (by decide)⟩

/-- C9: a `time.Time` leaf with no validators attached is set to the zero
time when no value is posted under its key — the absent-key preservation
of the concrete primitive leaves does not extend to time fields, because
the `time.Time` branch runs before the absent-values guard. -/
theorem claim_C9_time_zeroed_on_absent (h : HTTPDecoder) (t : GoTime) (key : String)
    (st : DecoderSt) (habs : h.getFormValues key = []) :
    h.decode (.timeV t) key [] st = .ok (.timeV zeroGoTime, st) := by
  rw [HTTPDecoder.decode, habs]
  exact setIfPassed_nil h key _ st _ _

/-- C9 witness. -/
theorem claim_C9_time_zeroed_on_absent_witness :
    HTTPDecoder.decode ⟨[("Other", "x")], [], [], false⟩
        (.timeV ⟨2020, 5, 28, 15, 28, 30⟩) "a.b.T" [] ⟨0, {}⟩ =
      .ok (.timeV zeroGoTime, ⟨0, {}⟩) :=
  claim_C9_time_zeroed_on_absent ⟨[("Other", "x")], [], [], false⟩
    ⟨2020, 5, 28, 15, 28, 30⟩ "a.b.T" ⟨0, {}⟩ (by decide)

/-- C2 (counterexample): the claim quantifies over every configuration of
the show-condition registry, but a condition registered under the name
`"-"` overrides the always-hidden sentinel: with `AddShowCondition("-",
true)` a `show:"-"` field is rendered into the output and posted values
for it are assigned by Decode. -/
theorem claim_C2_counterexample :
    (controlNamesList
        ((HTMLEncoder.Encode ⟨[("-", true)], ""⟩ {}
            (.structV (.cons "F" { showTag := "-" } (.str "x") .nil)) "a.b").1.toOption.getD
          [])).contains "F" = true ∧
      HTTPDecoder.Decode ⟨[("F", "y")], [("-", true)], [], false⟩ {}
          (.structV (.cons "F" { showTag := "-" } (.str "x") .nil)) "a.b" =
        .success (.structV (.cons "F" { showTag := "-" } (.str "y") .nil)) {} := by
  constructor <;> decide

/-- C2 (amended): for every registry configuration, a field that is
hidden under that configuration (its first registered show condition
resolves false, or its tag is the `"-"` sentinel with no condition
registered under `"-"`) contributes nothing to the encoder's output — the
rendered output equals that of the record with all hidden fields removed
— and Decode leaves the field (name, tags and value) untouched whatever
was posted under its key. -/
theorem claim_C2_hidden_field_invariant :
    (∀ (e : HTMLEncoder) (store : MemStore) (fs : Fields) (key : String),
        e.recurseFields store fs key =
          e.recurseFields store (fs.filterVisible e.showConditions) key) ∧
      (∀ (h : HTTPDecoder) (fs : Fields) (key : String) (st : DecoderSt)
          (fs' : Fields) (st' : DecoderSt) (i : Nat) (n : String) (t : Tags) (v : Value),
          h.decodeFields fs key st = .ok (fs', st') →
          fs.get? i = some (n, t, v) →
          StructField.Hidden (α := DynVal) ⟨n, t, []⟩ h.showConditions = true →
          fs'.get? i = some (n, t, v)) :=
  ⟨recurseFields_filterVisible, decodeFields_hidden_untouched⟩

/-- C2 witness. -/
theorem claim_C2_hidden_field_invariant_witness :
    (HTMLEncoder.recurseFields ⟨[], ""⟩ {}
        (.cons "F" { showTag := "-" } (.str "x") (.cons "G" {} (.str "g") .nil)) "a.b" =
      HTMLEncoder.recurseFields ⟨[], ""⟩ {}
        ((Fields.cons "F" { showTag := "-" } (.str "x")
            (.cons "G" {} (.str "g") .nil)).filterVisible []) "a.b") ∧
      Fields.get? (.cons "F" { showTag := "-" } (.str "x") (.cons "G" {} (.str "hello") .nil)) 0 =
        some ("F", { showTag := "-" }, .str "x") := by
  constructor
  · exact claim_C2_hidden_field_invariant.1 ⟨[], ""⟩ {} _ "a.b"
  · exact claim_C2_hidden_field_invariant.2
      ⟨[("F", "posted"), ("G", "hello")], [], [], false⟩
      (.cons "F" { showTag := "-" } (.str "x") (.cons "G" {} (.str "g") .nil)) "a.b" ⟨0, {}⟩
      (.cons "F" { showTag := "-" } (.str "x") (.cons "G" {} (.str "hello") .nil)) ⟨0, {}⟩
      0 "F" { showTag := "-" } (.str "x") (by decide) (by decide) (by decide)

end Formulate

namespace Formulate

/-- C3: primitive leaves are left unmodified when no values are posted
under their key — both leafwise (any concrete leaf whose stripped key has
no posted values decodes to itself with untouched state) and for a whole
record decoded against an empty posted-value set, whose outcome agrees
with the original on every primitive leaf. -/
theorem claim_C3_absent_values_preserve :
    (∀ (h : HTTPDecoder) (v : Value) (key : String) (vs : List ValidatorFun)
        (st : DecoderSt), concreteLeaf v = true → h.getFormValues key = [] →
        h.decode v key vs st = .ok (v, st)) ∧
      (∀ (h : HTTPDecoder) (store0 : MemStore) (fs : Fields) (tn : String)
          (rec' : Value) (store' : MemStore), h.form = [] →
          (h.Decode store0 (.structV fs) tn = .success rec' store' ∨
            h.Decode store0 (.structV fs) tn = .failedValidation rec' store') →
          agreesPrim (.structV fs) rec' = true) := by
  constructor
  · exact fun h v key vs st hl ha => decode_concreteLeaf_absent h v key vs st hl ha
  · intro h store0 fs tn rec' store' hform hout
    rw [HTTPDecoder.Decode] at hout
    rcases hr : h.decode (.structV fs) tn [] ⟨0, store0⟩ with e | ⟨r2, st2⟩ <;>
      rw [hr] at hout
    · rcases hout with h1 | h1 <;> exact absurd h1 (by simp)
    · dsimp only at hout
      by_cases hn : st2.numValidationErrors > 0
    

      · rw [if_pos hn] at hout
        rcases hout with h1 | h1
        · exact absurd h1 (by simp)
        · simp only [DecodeOutcome.failedValidation.injEq] at h1
          rw [← h1.1]
          exact decode_empty_agrees h (.structV fs) tn [] ⟨0, store0⟩ r2 st2 hform hr
      · rw [if_neg hn] at hout
        rcases hout with h1 | h1
        · simp only [DecodeOutcome.success.injEq] at h1
          rw [← h1.1]
          exact decode_empty_agrees h (.structV fs) tn [] ⟨0, store0⟩ r2 st2 hform hr
        · exact absurd h1 (by simp)

/-- C3 witness. -/
theorem claim_C3_absent_values_preserve_witness :
    (concreteLeaf (.intV 40) = true ∧
      HTTPDecoder.getFormValues ⟨[], [], [], false⟩ "a.b.Age" = [] ∧
      HTTPDecoder.decode ⟨[], [], [], false⟩ (.intV 40) "a.b.Age" [] ⟨0, {}⟩ =
        .ok (.intV 40, ⟨0, {}⟩)) ∧
      agreesPrim (.structV (.cons "Age" {} (.intV 40) .nil))
        (.structV (.cons "Age" {} (.intV 40) .nil)) = true := by
  refine ⟨⟨by decide, by decide, ?_⟩, ?_⟩
  · exact claim_C3_absent_values_preserve.1 ⟨[], [], [], false⟩ (.intV 40) "a.b.Age" []
      ⟨0, {}⟩ (by decide) (by decide)
  · exact claim_C3_absent_values_preserve.2 ⟨[], [], [], false⟩ {}
      (.cons "Age" {} (.intV 40) .nil) "a.b"
      (.structV (.cons "Age" {} (.intV 40) .nil)) {} (by decide)
      (.inl (by decide))

/-- C4: when the walk completes and the validation-failure counter is
positive, `Decode` persists the mutated record in the validation store
via `SetFormValue` and reports the `ErrFormFailedValidation` sentinel
(`DecodeOutcome.failedValidation`), not a hard error; and a validator
failure never aborts the walk — the decoded values (and any returned
error) of every subtree are independent of the accumulated error state,
so all remaining fields are still visited and decoded the same way. -/
theorem claim_C4_validation_sentinel :
    (∀ (h : HTTPDecoder) (store0 : MemStore) (fs : Fields) (tn : String)
        (rec' : Value) (st' : DecoderSt),
        h.decode (.structV fs) tn [] ⟨0, store0⟩ = .ok (rec', st') →
        0 < st'.numValidationErrors →
        h.Decode store0 (.structV fs) tn =
          .failedValidation rec' (st'.store.SetFormValue rec')) ∧
      (∀ (h : HTTPDecoder) (v : Value) (key : String) (vs : List ValidatorFun)
          (st1 st2 : DecoderSt),
          valuePart (h.decode v key vs st1) = valuePart (h.decode v key vs st2)) := by
  constructor
  · intro h store0 fs tn rec' st' hr hn
    rw [HTTPDecoder.Decode, hr]
    dsimp only
    rw [if_pos hn]
  · exact decode_state_indep

end Formulate

namespace Formulate

/-- C4 witness. -/
theorem claim_C4_validation_sentinel_witness :
    HTTPDecoder.Decode
        ⟨[("Age", "10")], [],
          [("minAge", fun v => match v with
            | Value.intV i => (decide ((20 : Int) ≤ i), "You must be over 20!")
            | _ => (false, "invalid type"))], false⟩ {}
        (.structV (.cons "Age" { validatorsTag := "minAge" } (.intV 40) .nil)) "a.b" =
      .failedValidation
        (.structV (.cons "Age" { validatorsTag := "minAge" } (.intV 40) .nil))
        { errors := [("Age", ⟨"You must be over 20!", Value.intV 10⟩)],
          formValue :=
            some (.structV (.cons "Age" { validatorsTag := "minAge" } (.intV 40) .nil)) } ∧
      valuePart
          (HTTPDecoder.decode ⟨[("Name", "x")], [], [], false⟩ (.str "q") "a.b.Name" []
            ⟨0, {}⟩) =
        valuePart
          (HTTPDecoder.decode ⟨[("Name", "x")], [], [], false⟩ (.str "q") "a.b.Name" []
            ⟨7, { errors := [("Z", ⟨"m", Value.str "w"⟩)], formValue := none }⟩) := by
  constructor
  · exact claim_C4_validation_sentinel.1
      ⟨[("Age", "10")], [],
        [("minAge", fun v => match v with
          | Value.intV i => (decide ((20 : Int) ≤ i), "You must be over 20!")
          | _ => (false, "invalid type"))], false⟩ {}
      (.cons "Age" { validatorsTag := "minAge" } (.intV 40) .nil) "a.b"
      (.structV (.cons "Age" { validatorsTag := "minAge" } (.intV 40) .nil))
      ⟨1, { errors := [("Age", ⟨"You must be over 20!", Value.intV 10⟩)],
            formValue := none }⟩
      (by decide) (by decide)
  · exact claim_C4_validation_sentinel.2 ⟨[("Name", "x")], [], [], false⟩ (.str "q")
      "a.b.Name" [] ⟨0, {}⟩ ⟨7, { errors := [("Z", ⟨"m", Value.str "w"⟩)], formValue := none }⟩

end Formulate

namespace Formulate

/-- C5: a malformed posted value on a single visible leaf (malformed
number, malformed date-time, or malformed opaque-collection JSON) makes
the whole `Decode` call return an ordinary error — the walk aborts at the
failing field and the outcome is `fatal`, unlike validation failures,
which keep the walk going. -/
theorem claim_C5_parse_error_aborts (h : HTTPDecoder) (store0 : MemStore)
    (fs1 : Fields) (n : String) (t : Tags) (v : Value) (rest : Fields) (tn : String)
    (fs1' : Fields) (st1 : DecoderSt) (fv : String) (vrest : List String)
    (h1 : h.decodeFields fs1 tn ⟨0, store0⟩ = .ok (fs1', st1))
    (hh : StructField.Hidden (α := DynVal) ⟨n, t, []⟩ h.showConditions = false)
    (hv : h.getFormValues (tn ++ fieldSeparator ++ n) = fv :: vrest)
    (hm : malformedFor v fv = true) :
    ∃ msg, h.Decode store0 (.structV (fs1.append (.cons n t v rest))) tn =
      .fatal (.fail msg) := by
  obtain ⟨msg, hdm⟩ := decode_malformed h v (tn ++ fieldSeparator ++ n)
    (h.getValidators (StructField.Validators (α := DynVal) ⟨n, t, []⟩)) st1 fv vrest hv hm
  refine ⟨msg, ?_⟩
  rw [HTTPDecoder.Decode, HTTPDecoder.decode,
    decodeFields_append h fs1 (.cons n t v rest) tn ⟨0, store0⟩, h1]
  dsimp only
  rw [HTTPDecoder.decodeFields, if_neg (by simp [hh]), hdm]

/-- C5 witness: a malformed integer aborts the decode. -/
theorem claim_C5_parse_error_aborts_witness :
    ∃ msg, HTTPDecoder.Decode ⟨[("Age", "abc")], [], [], false⟩ {}
        (.structV (Fields.append .nil (.cons "Age" {} (.intV 40) .nil))) "a.b" =
      .fatal (.fail msg) :=
  claim_C5_parse_error_aborts ⟨[("Age", "abc")], [], [], false⟩ {} .nil "Age" {}
    (.intV 40) .nil "a.b" .nil ⟨0, {}⟩ "abc" [] (by decide) (by decide) (by decide)
    (by decide)

/-- C10: decoding a record containing a `BoolNumber` field requires a
posted entry for that field's key: the `CustomDecoder` branch runs before
the absent-values guard and `BoolNumber.DecodeFormValue` indexes
`values[0]` unguarded, so with no posted values the whole `Decode` ends
in the out-of-range runtime panic instead of returning. -/
theorem claim_C10_boolnumber_absent_panics (h : HTTPDecoder) (store0 : MemStore)
    (fs1 : Fields) (n : String) (t : Tags) (m : Int) (rest : Fields) (tn : String)
    (fs1' : Fields) (st1 : DecoderSt)
    (h1 : h.decodeFields fs1 tn ⟨0, store0⟩ = .ok (fs1', st1))
    (hh : StructField.Hidden (α := DynVal) ⟨n, t, []⟩ h.showConditions = false)
    (hv : h.getFormValues (tn ++ fieldSeparator ++ n) = []) :
    h.Decode store0 (.structV (fs1.append (.cons n t (.boolNumV m) rest))) tn =
      .fatal (.goPanic indexOutOfRangeMsg) := by
  have hdm : h.decode (.boolNumV m) (tn ++ fieldSeparator ++ n)
      (h.getValidators (StructField.Validators (α := DynVal) ⟨n, t, []⟩)) st1 =
      .error (.goPanic indexOutOfRangeMsg) := by
    rw [HTTPDecoder.decode, hv]
  rw [HTTPDecoder.Decode, HTTPDecoder.decode,
    decodeFields_append h fs1 (.cons n t (.boolNumV m) rest) tn ⟨0, store0⟩, h1]
  dsimp only
  rw [HTTPDecoder.decodeFields, if_neg (by simp [hh]), hdm]

/-- C10 witness. -/
theorem claim_C10_boolnumber_absent_panics_witness :
    HTTPDecoder.Decode ⟨[("Other", "1")], [], [], false⟩ {}
        (.structV (Fields.append .nil (.cons "Confirmed" {} (.boolNumV 0) .nil))) "a.b" =
      .fatal (.goPanic indexOutOfRangeMsg) :=
  claim_C10_boolnumber_absent_panics ⟨[("Other", "1")], [], [], false⟩ {} .nil
    "Confirmed" {} 0 .nil "a.b" .nil ⟨0, {}⟩ (by decide) (by decide) (by decide)

end Formulate

namespace Formulate

/-- C6: a posted value that fails its field's validator is not assigned
with the default configuration — the field keeps its pre-existing value
and the failing value is recorded (with its message) only in the
validation store, incrementing the failure counter — while enabling
`SetValueOnValidationError` makes the decoder assign the failing value
for redisplay, with the same store effect. -/
theorem claim_C6_set_value_on_validation_error (form : Form) (conds : ShowConditions)
    (reg : List (String × ValidatorFun)) (vf : ValidatorFun) (key : String)
    (s0 fv : String) (vrest : List String) (st : DecoderSt) (msg : String)
    (hv : Form.get form (formElementName key) = fv :: vrest)
    (hvf : vf (.str fv) = (false, msg)) :
    HTTPDecoder.decode ⟨form, conds, reg, false⟩ (.str s0) key [vf] st =
        .ok (.str s0,
          ⟨st.numValidationErrors + 1,
            st.store.AddValidationError (formElementName key) ⟨msg, .str fv⟩⟩) ∧
      HTTPDecoder.decode ⟨form, conds, reg, true⟩ (.str s0) key [vf] st =
        .ok (.str fv,
          ⟨st.numValidationErrors + 1,
            st.store.AddValidationError (formElementName key) ⟨msg, .str fv⟩⟩) := by
  have hg0 : (⟨form, conds, reg, false⟩ : HTTPDecoder).getFormValues key = fv :: vrest := by
    rw [HTTPDecoder.getFormValues]; exact hv
  have hg1 : (⟨form, conds, reg, true⟩ : HTTPDecoder).getFormValues key = fv :: vrest := by
    rw [HTTPDecoder.getFormValues]; exact hv
  constructor
  · rw [HTTPDecoder.decode, hg0]
    dsimp only
    rw [HTTPDecoder.setIfPassed]
    simp [HTTPDecoder.passedValidation, HTTPDecoder.passedValidationAux, hvf]
  · rw [HTTPDecoder.decode, hg1]
    dsimp only
    rw [HTTPDecoder.setIfPassed]
    simp [HTTPDecoder.passedValidation, HTTPDecoder.passedValidationAux, hvf]

/-- C6 witness. -/
theorem claim_C6_set_value_on_validation_error_witness :
    HTTPDecoder.decode
          ⟨[("CountryCode", "uk")], [], [], false⟩ (.str "FR") "a.b.CountryCode"
          [fun v => match v with
            | Value.str s => (decide (s.length = 3 ∧ s = "UK"), "bad country code")
            | _ => (false, "invalid type")] ⟨0, {}⟩ =
        .ok (.str "FR",
          ⟨1, MemStore.AddValidationError {} "CountryCode" ⟨"bad country code", .str "uk"⟩⟩) ∧
      HTTPDecoder.decode
          ⟨[("CountryCode", "uk")], [], [], true⟩ (.str "FR") "a.b.CountryCode"
          [fun v => match v with
            | Value.str s => (decide (s.length = 3 ∧ s = "UK"), "bad country code")
            | _ => (false, "invalid type")] ⟨0, {}⟩ =
        .ok (.str "uk",
          ⟨1, MemStore.AddValidationError {} "CountryCode" ⟨"bad country code", .str "uk"⟩⟩) :=
  claim_C6_set_value_on_validation_error [("CountryCode", "uk")] [] []
    (fun v => match v with
      | Value.str s => (decide (s.length = 3 ∧ s = "UK"), "bad country code")
      | _ => (false, "invalid type"))
    "a.b.CountryCode" "FR" "uk" [] ⟨0, {}⟩ "bad country code" (by decide) (by decide)

end Formulate

namespace Formulate

/-- C8 (counterexample): the claim that a failed Encode leaves the stored
validation errors in place is false — the deferred
`ClearValidationErrors` runs regardless of the error state, so even an
`Encode` that fails with the incorrect-value error empties the store. -/
theorem claim_C8_counterexample :
    (HTMLEncoder.Encode ⟨[], ""⟩
          { errors := [("X", ⟨"bad", Value.str "v"⟩)], formValue := none }
          (.intV 3) "a.b").1 = .error "formulate: encode expects a struct value" ∧
      ((HTMLEncoder.Encode ⟨[], ""⟩
            { errors := [("X", ⟨"bad", Value.str "v"⟩)], formValue := none }
            (.intV 3) "a.b").2).GetValidationErrors "X" = [] := by
  constructor <;> decide

/-- C8 (amended): validation errors accumulated in the store during a
decode are read back during the following Encode to annotate fields — a
visible, non-`hidden`-typed leaf field whose stripped key has stored
errors renders with the inline validation-error text — and every Encode
call clears the store's errors regardless of its error state (both
successful and failed encodes leave `GetValidationErrors` empty for every
field path). -/
theorem claim_C8_validation_error_lifecycle :
    (∀ (e : HTMLEncoder) (store0 : MemStore) (rec : Value) (tn : String) (path : String),
        ((e.Encode store0 rec tn).2).GetValidationErrors path = []) ∧
      (∀ (e : HTMLEncoder) (store : MemStore) (n : String) (t : Tags) (v : Value)
          (rest : Fields) (key : String) (errs : List (ValidationError DynVal)),
          store.GetValidationErrors (FormElementName e.namePfx (key ++ fieldSeparator ++ n)) =
              errs →
          errs ≠ [] →
          (∀ gs, v ≠ .structV gs) →
          StructField.Hidden (α := DynVal) ⟨n, t, errs⟩ e.showConditions = false →
          (StructField.InputType (α := DynVal) ⟨n, t, errs⟩ "" == "hidden") = false →
          (e.recurseFields store (.cons n t v rest) key).any
              (containsSub (BuildValidationText ⟨n, t, errs⟩)) = true) := by
  constructor
  · intro e store0 rec tn path
    simp [HTMLEncoder.Encode, MemStore.GetValidationErrors]
  · intro e store n t v rest key errs herrs hne hns hh ht
    rw [HTMLEncoder.recurseFields, herrs, List.any_append]
    have hb : (BuildField e.showConditions v
        (FormElementName e.namePfx (key ++ fieldSeparator ++ n)) ⟨n, t, errs⟩).any
          (containsSub (BuildValidationText ⟨n, t, errs⟩)) = true := by
      rw [BuildField, if_neg (by simp [hh])]
      simp only [ht, Bool.false_eq_true, if_false]
      simp [containsSub, containsSubL, containsSubL_ofList, NodeList.ofList,
        containsSub_self, hne, List.any_append]
    cases v
    case structV gs => exact absurd rfl (hns gs)
    all_goals simp [HTMLEncoder.recurse, hb]

end Formulate

namespace Formulate

/-- C8 witness. -/
theorem claim_C8_validation_error_lifecycle_witness :
    ((HTMLEncoder.Encode ⟨[], ""⟩
          { errors := [("Name", ⟨"msg", Value.str "bad"⟩)], formValue := none }
          (.structV (.cons "Name" {} (.str "x") .nil)) "a.b").2).GetValidationErrors "Name" =
        [] ∧
      (HTMLEncoder.recurseFields ⟨[], ""⟩
            { errors := [("Name", ⟨"msg", Value.str "bad"⟩)], formValue := none }
            (.cons "Name" {} (.str "x") .nil) "a.b").any
          (containsSub (BuildValidationText ⟨"Name", {}, [⟨"msg", Value.str "bad"⟩]⟩)) =
        true := by
  constructor
  · exact claim_C8_validation_error_lifecycle.1 ⟨[], ""⟩
      { errors := [("Name", ⟨"msg", Value.str "bad"⟩)], formValue := none }
      (.structV (.cons "Name" {} (.str "x") .nil)) "a.b" "Name"
  · exact claim_C8_validation_error_lifecycle.2 ⟨[], ""⟩
      { errors := [("Name", ⟨"msg", Value.str "bad"⟩)], formValue := none }
      "Name" {} (.str "x") .nil "a.b" [⟨"msg", Value.str "bad"⟩]
      (by decide) (by decide) (fun gs => by simp) (by decide) (by decide)

end Formulate

namespace Formulate

/-! ### Lemmas towards the encode/decode round trip -/

theorem strSplit_empty_comma : strSplit "" ',' = [""] := rfl

theorem hidden_default (n : String) (errs : List (ValidationError DynVal))
    (conds : ShowConditions) (hc : conds.lookup "" = none) :
    StructField.Hidden (α := DynVal) ⟨n, {}, errs⟩ conds = false := by
  simp [StructField.Hidden, strSplit_empty_comma, List.findSome?, hc]
  decide

theorem buildFieldset_default (n : String) (errs : List (ValidationError DynVal)) :
    StructField.BuildFieldset (α := DynVal) ⟨n, {}, errs⟩ = true := by
  simp [StructField.BuildFieldset, strSplit_empty_comma, List.findSome?]

theorem getValidators_default (h : HTTPDecoder) (n : String)
    (hv : h.validators.lookup "" = none) :
    h.getValidators (StructField.Validators (α := DynVal) ⟨n, {}, []⟩) = [] := by
  simp [HTTPDecoder.getValidators, StructField.Validators, strSplit_empty_comma, hv]

theorem ne_empty_of_data {s : String} (h : s.data ≠ []) : s ≠ "" :=
  fun he => h (he ▸ rfl)

theorem natRepr_ne_empty (n : Nat) : natRepr n ≠ "" :=
  ne_empty_of_data (by rw [natRepr_data]; exact natDecCharsAux_ne_nil n n)

theorem intRepr_ne_empty (i : Int) : intRepr i ≠ "" := by
  apply ne_empty_of_data
  by_cases hneg : i < 0 <;>
    simp [intRepr, hneg, String.data_append, natRepr_data, natDecCharsAux_ne_nil]

theorem formatDec_ne_empty (d : Dec) : formatDec d ≠ "" := by
  apply ne_empty_of_data
  obtain ⟨m, e⟩ := d
  by_cases he : e = 0 <;> by_cases hneg : m < 0 <;>
    simp [formatDec, he, hneg, String.data_append, natRepr_data, natDecCharsAux_ne_nil]

theorem nodeListPairs_ofList (l : List Node) :
    nodeListPairs (NodeList.ofList l) = pairsOfList l := by
  induction l with
  | nil => rfl
  | cons n rest ih => simp [NodeList.ofList, nodeListPairs, pairsOfList, ih]

theorem selectedOption_spec (k cur : String) (opts : List String) :
    selectedOptionPairs k (NodeList.ofList (selectOptionNodes cur opts)) =
      if cur ∈ opts then [(k, cur)] else [] := by
  induction opts with
  | nil => simp [selectOptionNodes, NodeList.ofList, selectedOptionPairs]
  | cons opt rest ih =>
    by_cases hc : cur == opt
    · have hc' : cur = opt := by simpa using hc
      subst hc'
      simp [selectOptionNodes, NodeList.ofList, selectedOptionPairs, attrVal]
    · have hc' : ¬(cur = opt) := by simpa using hc
      simp only [selectOptionNodes, NodeList.ofList, selectedOptionPairs, hc,
        if_false, Bool.false_eq_true]
      rw [ih]
      simp [attrVal, List.mem_cons, hc']

theorem radioPairs_spec (cur k : String) (opts : List String) :
    ∀ i, nodeListPairs (NodeList.ofList (radioOptionNodes cur k i opts)) =
      (opts.filter fun o => o == cur).map fun o => (k, o) := by
  induction opts with
  | nil => intro i; rfl
  | cons opt rest ih =>
    intro i
    by_cases hc : opt == cur
    · simp only [radioOptionNodes, NodeList.ofList, nodeListPairs, nodePairs, hc, if_pos]
      rw [ih (i + 1)]
      simp [inputPairs, attrVal, List.filter_cons, List.lookup, hc]
    · simp only [radioOptionNodes, NodeList.ofList, nodeListPairs, nodePairs, hc,
        Bool.false_eq_true, if_false]
      rw [ih (i + 1)]
      simp [inputPairs, attrVal, List.filter_cons, List.lookup, hc]

end Formulate


namespace Formulate

theorem pairsOfList_append (a b : List Node) :
    pairsOfList (a ++ b) = pairsOfList a ++ pairsOfList b := by
  induction a with
  | nil => rfl
  | cons n rest ih => simp [pairsOfList, ih]

theorem struct_wrap_pairs (field : StructField DynVal) (children : List Node) :
    pairsOfList
      (if children = [] then []
       else if field.BuildFieldset then [buildFieldSetNode field children] else children) =
    pairsOfList children := by
  by_cases hch : children = []
  · simp [hch, pairsOfList]
  · by_cases hbf : field.BuildFieldset
    · simp only [hch, if_false, hbf, if_true, if_pos]
      simp only [pairsOfList, nodePairs, buildFieldSetNode]
      rw [nodeListPairs_ofList, pairsOfList_append]
      by_cases hn : field.GetName ≠ "" <;>
        simp [hn, pairsOfList, nodePairs, nodeListPairs]
    · simp [hch, hbf]

theorem radioPairs_spec2 (cur k : String) (opts : List String) (i : Nat) :
    pairsOfList (radioOptionNodes cur k i opts) =
      (opts.filter fun o => o == cur).map fun o => (k, o) := by
  rw [← nodeListPairs_ofList]
  exact radioPairs_spec cur k opts i

theorem rtOkF_cons {n : String} {t : Tags} {v : Value} {rest : Fields} {key : String}
    (h : rtOkF (.cons n t v rest) key = true) :
    t = {} ∧ rtOk v (key ++ fieldSeparator ++ n) = true ∧ rtOkF rest key = true := by
  have h' := h
  simp only [rtOkF, Bool.and_eq_true, beq_iff_eq] at h'
  exact ⟨h'.1.1, h'.1.2, h'.2⟩

theorem buildField_leaf_pairs (conds : ShowConditions) (hc : conds.lookup "" = none)
    (v : Value) (key n : String) (errs : List (ValidationError DynVal))
    (hns : ∀ fs2, v ≠ .structV fs2) :
    pairsOfList (BuildField conds v (FormElementName "" key) ⟨n, {}, errs⟩) =
      leafPairs v key := by
  have hval : pairsOfList
      (if errs = [] then [] else [BuildValidationText ⟨n, {}, errs⟩]) = [] := by
    by_cases he : errs = [] <;>
      simp [he, pairsOfList, BuildValidationText, nodePairs, nodeListPairs]
  have hih : (StructField.InputType (α := DynVal) ⟨n, {}, errs⟩ "" == "hidden") = false := rfl
  cases v with
  | structV fs => exact absurd rfl (hns fs)
  | str s =>
    have hin : buildInputNode (.str s) (FormElementName "" key) ⟨n, {}, errs⟩ =
        [.elem "input" [("type", "text"), ("name", FormElementName "" key),
          ("id", FormElementName "" key), ("value", s)] .nil] := rfl
    simp only [BuildField, hidden_default n errs conds hc, Bool.false_eq_true, if_false,
      hih, hin]
    simp [pairsOfList, nodePairs, nodeListPairs, nodeListPairs_ofList, pairsOfList_append,
      hval, BuildLabel, BuildHelpText, inputPairs, attrVal, List.lookup, leafPairs]
  | intV i =>
    have hin : buildInputNode (.intV i) (FormElementName "" key) ⟨n, {}, errs⟩ =
        [.elem "input" [("type", "number"), ("name", FormElementName "" key),
          ("id", FormElementName "" key), ("value", intRepr i)] .nil] := rfl
    simp only [BuildField, hidden_default n errs conds hc, Bool.false_eq_true, if_false,
      hih, hin]
    simp [pairsOfList, nodePairs, nodeListPairs, nodeListPairs_ofList, pairsOfList_append,
      hval, BuildLabel, BuildHelpText, inputPairs, attrVal, List.lookup, leafPairs]
  | uintV m =>
    have hin : buildInputNode (.uintV m) (FormElementName "" key) ⟨n, {}, errs⟩ =
        [.elem "input" [("type", "number"), ("name", FormElementName "" key),
          ("id", FormElementName "" key), ("value", natRepr m)] .nil] := rfl
    simp only [BuildField, hidden_default n errs conds hc, Bool.false_eq_true, if_false,
      hih, hin]
    simp [pairsOfList, nodePairs, nodeListPairs, nodeListPairs_ofList, pairsOfList_append,
      hval, BuildLabel, BuildHelpText, inputPairs, attrVal, List.lookup, leafPairs]
  | floatV d =>
    have hin : buildInputNode (.floatV d) (FormElementName "" key) ⟨n, {}, errs⟩ =
        [.elem "input" [("type", "number"), ("name", FormElementName "" key),
          ("id", FormElementName "" key), ("value", formatDec d), ("step", "any")] .nil] := rfl
    simp only [BuildField, hidden_default n errs conds hc, Bool.false_eq_true, if_false,
      hih, hin]
    simp [pairsOfList, nodePairs, nodeListPairs, nodeListPairs_ofList, pairsOfList_append,
      hval, BuildLabel, BuildHelpText, inputPairs, attrVal, List.lookup, leafPairs]
  | boolV b =>
    cases b with
    | false =>
      have hin : buildInputNode (.boolV false) (FormElementName "" key) ⟨n, {}, errs⟩ =
          [.elem "input" [("type", "checkbox"), ("name", FormElementName "" key),
            ("id", FormElementName "" key)] .nil] := rfl
      simp only [BuildField, hidden_default n errs conds hc, Bool.false_eq_true, if_false,
        hih, hin]
      simp [pairsOfList, nodePairs, nodeListPairs, nodeListPairs_ofList, pairsOfList_append,
        hval, BuildLabel, BuildHelpText, inputPairs, attrVal, List.lookup, leafPairs]
    | true =>
      have hin : buildInputNode (.boolV true) (FormElementName "" key) ⟨n, {}, errs⟩ =
          [.elem "input" [("type", "checkbox"), ("name", FormElementName "" key),
            ("id", FormElementName "" key), ("checked", "checked")] .nil] := rfl
      simp only [BuildField, hidden_default n errs conds hc, Bool.false_eq_true, if_false,
        hih, hin]
      simp [pairsOfList, nodePairs, nodeListPairs, nodeListPairs_ofList, pairsOfList_append,
        hval, BuildLabel, BuildHelpText, inputPairs, attrVal, List.lookup, leafPairs]
  | boolNumV i =>
    by_cases hb : i == 1
    · have hin : buildInputNode (.boolNumV i) (FormElementName "" key) ⟨n, {}, errs⟩ =
          [.elem "input" [("type", "checkbox"), ("name", FormElementName "" key),
            ("id", FormElementName "" key), ("checked", "checked")] .nil] := by
        simp [buildInputNode, BuildBoolField, hb]
      simp only [BuildField, hidden_default n errs conds hc, Bool.false_eq_true, if_false,
        hih, hin]
      simp [pairsOfList, nodePairs, nodeListPairs, nodeListPairs_ofList, pairsOfList_append,
        hval, BuildLabel, BuildHelpText, inputPairs, attrVal, List.lookup, leafPairs, hb]
    · have hin : buildInputNode (.boolNumV i) (FormElementName "" key) ⟨n, {}, errs⟩ =
          [.elem "input" [("type", "checkbox"), ("name", FormElementName "" key),
            ("id", FormElementName "" key)] .nil] := by
        simp [buildInputNode, BuildBoolField, hb]
      simp only [BuildField, hidden_default n errs conds hc, Bool.false_eq_true, if_false,
        hih, hin]
      simp [pairsOfList, nodePairs, nodeListPairs, nodeListPairs_ofList, pairsOfList_append,
        hval, BuildLabel, BuildHelpText, inputPairs, attrVal, List.lookup, leafPairs, hb]
  | timeV t =>
    have hin : buildInputNode (.timeV t) (FormElementName "" key) ⟨n, {}, errs⟩ =
        [.elem "input" [("type", "datetime-local"), ("name", FormElementName "" key),
          ("id", FormElementName "" key), ("value", formatGoTime t)] .nil] := rfl
    simp only [BuildField, hidden_default n errs conds hc, Bool.false_eq_true, if_false,
      hih, hin]
    simp [pairsOfList, nodePairs, nodeListPairs, nodeListPairs_ofList, pairsOfList_append,
      hval, BuildLabel, BuildHelpText, inputPairs, attrVal, List.lookup, leafPairs]
  | selectV cur opts =>
    have hin : buildInputNode (.selectV cur opts) (FormElementName "" key) ⟨n, {}, errs⟩ =
        [BuildSelectField cur opts (FormElementName "" key)] := rfl
    simp only [BuildField, hidden_default n errs conds hc, Bool.false_eq_true, if_false,
      hih, hin, BuildSelectField]
    simp [pairsOfList, nodePairs, nodeListPairs, nodeListPairs_ofList, pairsOfList_append,
      hval, BuildLabel, BuildHelpText, attrVal, List.lookup, selectedOption_spec, leafPairs]
  | radioV cur opts =>
    have hin : buildInputNode (.radioV cur opts) (FormElementName "" key) ⟨n, {}, errs⟩ =
        [BuildRadioButtons cur opts (FormElementName "" key)] := rfl
    simp only [BuildField, hidden_default n errs conds hc, Bool.false_eq_true, if_false,
      hih, hin, BuildRadioButtons]
    simp [pairsOfList, nodePairs, nodeListPairs, nodeListPairs_ofList, pairsOfList_append,
      hval, BuildLabel, BuildHelpText, attrVal, List.lookup, radioPairs_spec2, leafPairs]
  | strListV xs =>
    have hin : buildInputNode (.strListV xs) (FormElementName "" key) ⟨n, {}, errs⟩ =
        [.elem "textarea" [("name", FormElementName "" key), ("id", FormElementName "" key)]
          (.cons (.text (jsonEncodeStrList xs)) .nil)] := rfl
    simp only [BuildField, hidden_default n errs conds hc, Bool.false_eq_true, if_false,
      hih, hin]
    simp [pairsOfList, nodePairs, nodeListPairs, nodeListPairs_ofList, pairsOfList_append,
      hval, BuildLabel, BuildHelpText, attrVal, List.lookup, leafPairs, textOf]

end Formulate

namespace Formulate

mutual
/-- With no element-name prefix, an always-empty show-condition lookup for
the default (empty) show tag, and a round-trippable subtree, the browser
read-back of the rendered subtree is exactly `leafPairs`. -/
theorem recurse_pairs (e : HTMLEncoder) (store : MemStore) (v : Value) (key : String)
    (n : String) (errs : List (ValidationError DynVal))
    (hpfx : e.namePfx = "") (hc : e.showConditions.lookup "" = none)
    (hok : rtOk v key = true) :
    pairsOfList (e.recurse store v key ⟨n, {}, errs⟩) = leafPairs v key := by
  cases v with
  | structV fs =>
    rw [show e.recurse store (.structV fs) key ⟨n, {}, errs⟩ =
        (if (StructField.Hidden (α := DynVal) ⟨n, {}, errs⟩ e.showConditions) then []
         else
           if e.recurseFields store fs key = [] then []
           else if StructField.BuildFieldset (α := DynVal) ⟨n, {}, errs⟩ then
             [buildFieldSetNode ⟨n, {}, errs⟩ (e.recurseFields store fs key)]
           else e.recurseFields store fs key) from rfl]
    rw [hidden_default n errs e.showConditions hc]
    rw [if_neg (fun hh => Bool.false_ne_true hh)]
    rw [struct_wrap_pairs]
    rw [show leafPairs (.structV fs) key = leafPairsF fs key from rfl]
    exact recurseFields_pairs e store fs key hpfx hc hok
  | str s =>
    rw [show e.recurse store (.str s) key ⟨n, {}, errs⟩ =
        BuildField e.showConditions (.str s) (FormElementName e.namePfx key) ⟨n, {}, errs⟩
        from rfl, hpfx]
    exact buildField_leaf_pairs e.showConditions hc (.str s) key n errs (fun _ h => by cases h)
  | intV i =>
    rw [show e.recurse store (.intV i) key ⟨n, {}, errs⟩ =
        BuildField e.showConditions (.intV i) (FormElementName e.namePfx key) ⟨n, {}, errs⟩
        from rfl, hpfx]
    exact buildField_leaf_pairs e.showConditions hc (.intV i) key n errs (fun _ h => by cases h)
  | uintV m =>
    rw [show e.recurse store (.uintV m) key ⟨n, {}, errs⟩ =
        BuildField e.showConditions (.uintV m) (FormElementName e.namePfx key) ⟨n, {}, errs⟩
        from rfl, hpfx]
    exact buildField_leaf_pairs e.showConditions hc (.uintV m) key n errs (fun _ h => by cases h)
  | floatV d =>
    rw [show e.recurse store (.floatV d) key ⟨n, {}, errs⟩ =
        BuildField e.showConditions (.floatV d) (FormElementName e.namePfx key) ⟨n, {}, errs⟩
        from rfl, hpfx]
    exact buildField_leaf_pairs e.showConditions hc (.floatV d) key n errs (fun _ h => by cases h)
  | boolV b =>
    rw [show e.recurse store (.boolV b) key ⟨n, {}, errs⟩ =
        BuildField e.showConditions (.boolV b) (FormElementName e.namePfx key) ⟨n, {}, errs⟩
        from rfl, hpfx]
    exact buildField_leaf_pairs e.showConditions hc (.boolV b) key n errs (fun _ h => by cases h)
  | timeV t =>
    rw [show e.recurse store (.timeV t) key ⟨n, {}, errs⟩ =
        BuildField e.showConditions (.timeV t) (FormElementName e.namePfx key) ⟨n, {}, errs⟩
        from rfl, hpfx]
    exact buildField_leaf_pairs e.showConditions hc (.timeV t) key n errs (fun _ h => by cases h)
  | selectV cur opts =>
    rw [show e.recurse store (.selectV cur opts) key ⟨n, {}, errs⟩ =
        BuildField e.showConditions (.selectV cur opts) (FormElementName e.namePfx key)
          ⟨n, {}, errs⟩ from rfl, hpfx]
    exact buildField_leaf_pairs e.showConditions hc (.selectV cur opts) key n errs
      (fun _ h => by cases h)
  | radioV cur opts =>
    rw [show e.recurse store (.radioV cur opts) key ⟨n, {}, errs⟩ =
        BuildField e.showConditions (.radioV cur opts) (FormElementName e.namePfx key)
          ⟨n, {}, errs⟩ from rfl, hpfx]
    exact buildField_leaf_pairs e.showConditions hc (.radioV cur opts) key n errs
      (fun _ h => by cases h)
  | boolNumV i =>
    rw [show e.recurse store (.boolNumV i) key ⟨n, {}, errs⟩ =
        BuildField e.showConditions (.boolNumV i) (FormElementName e.namePfx key) ⟨n, {}, errs⟩
        from rfl, hpfx]
    exact buildField_leaf_pairs e.showConditions hc (.boolNumV i) key n errs
      (fun _ h => by cases h)
  | strListV xs =>
    rw [show e.recurse store (.strListV xs) key ⟨n, {}, errs⟩ =
        BuildField e.showConditions (.strListV xs) (FormElementName e.namePfx key) ⟨n, {}, errs⟩
        from rfl, hpfx]
    exact buildField_leaf_pairs e.showConditions hc (.strListV xs) key n errs
      (fun _ h => by cases h)
  termination_by structural v
/-- Fieldwise version of `recurse_pairs`. -/
theorem recurseFields_pairs (e : HTMLEncoder) (store : MemStore) (fs : Fields) (key : String)
    (hpfx : e.namePfx = "") (hc : e.showConditions.lookup "" = none)
    (hok : rtOkF fs key = true) :
    pairsOfList (e.recurseFields store fs key) = leafPairsF fs key := by
  cases fs with
  | nil => rfl
  | cons fn t v rest =>
    rcases rtOkF_cons hok with ⟨ht, hv, hrest⟩
    rw [show e.recurseFields store (.cons fn t v rest) key =
        e.recurse store v (key ++ fieldSeparator ++ fn)
            ⟨fn, t, store.GetValidationErrors
              (FormElementName e.namePfx (key ++ fieldSeparator ++ fn))⟩ ++
          e.recurseFields store rest key from rfl]
    rw [pairsOfList_append, ht]
    rw [recurse_pairs e store v (key ++ fieldSeparator ++ fn) fn _ hpfx hc hv]
    rw [recurseFields_pairs e store rest key hpfx hc hrest]
    rfl
  termination_by structural fs
end

end Formulate

namespace Formulate

theorem leafPairs_key_eq (v : Value) (key : String) (hns : ∀ fs2, v ≠ .structV fs2) :
    ∀ p ∈ leafPairs v key, p.1 = FormElementName "" key := by
  cases v with
  | structV fs => exact absurd rfl (hns fs)
  | str s => simp [leafPairs]
  | intV i => simp [leafPairs]
  | uintV m => simp [leafPairs]
  | floatV d => simp [leafPairs]
  | boolV b => cases b <;> simp [leafPairs]
  | timeV t => simp [leafPairs]
  | selectV cur opts => by_cases hm : cur ∈ opts <;> simp [leafPairs, hm]
  | radioV cur opts =>
    intro p hp
    rcases List.mem_map.mp hp with ⟨o, _, rfl⟩
    rfl
  | boolNumV i => by_cases hb : i == 1 <;> simp [leafPairs, hb]
  | strListV xs => simp [leafPairs]

mutual
/-- Every posted pair's key is one of the subtree's leaf keys. -/
theorem leafPairs_sub_keys (v : Value) (key : String) :
    ∀ p ∈ leafPairs v key, p.1 ∈ leafKeys v key := by
  cases v with
  | structV fs =>
    intro p hp
    exact leafPairsF_sub_keys fs key p hp
  | str s => simp [leafPairs, leafKeys]
  | intV i => simp [leafPairs, leafKeys]
  | uintV m => simp [leafPairs, leafKeys]
  | floatV d => simp [leafPairs, leafKeys]
  | boolV b => cases b <;> simp [leafPairs, leafKeys]
  | timeV t => simp [leafPairs, leafKeys]
  | selectV cur opts => by_cases hm : cur ∈ opts <;> simp [leafPairs, leafKeys, hm]
  | radioV cur opts =>
    intro p hp
    rcases List.mem_map.mp hp with ⟨o, _, rfl⟩
    simp [leafKeys]
  | boolNumV i => by_cases hb : i == 1 <;> simp [leafPairs, leafKeys, hb]
  | strListV xs => simp [leafPairs, leafKeys]
  termination_by structural v
/-- Fieldwise version of `leafPairs_sub_keys`. -/
theorem leafPairsF_sub_keys (fs : Fields) (key : String) :
    ∀ p ∈ leafPairsF fs key, p.1 ∈ leafKeysF fs key := by
  cases fs with
  | nil => simp [leafPairsF]
  | cons n t v rest =>
    intro p hp
    rcases List.mem_append.mp hp with hl | hr
    · exact List.mem_append.mpr (.inl (leafPairs_sub_keys v (key ++ fieldSeparator ++ n) p hl))
    · exact List.mem_append.mpr (.inr (leafPairsF_sub_keys rest key p hr))
  termination_by structural fs
end

theorem formAgrees_leaf (F : Form) (v : Value) (key : String)
    (hns : ∀ fs2, v ≠ .structV fs2)
    (h1 : Form.get F (FormElementName "" key) =
      Form.get (leafPairs v key) (FormElementName "" key)) :
    formAgrees F v key = true := by
  have hall := Form.get_of_all_key (leafPairs_key_eq v key hns)
  cases v with
  | structV fs => exact absurd rfl (hns fs)
  | str s => rw [show formAgrees F (.str s) key =
        (Form.get F (FormElementName "" key) == (leafPairs (.str s) key).map Prod.snd)
        from rfl, h1, hall]; exact beq_self_eq_true _
  | intV i => rw [show formAgrees F (.intV i) key =
        (Form.get F (FormElementName "" key) == (leafPairs (.intV i) key).map Prod.snd)
        from rfl, h1, hall]; exact beq_self_eq_true _
  | uintV m => rw [show formAgrees F (.uintV m) key =
        (Form.get F (FormElementName "" key) == (leafPairs (.uintV m) key).map Prod.snd)
        from rfl, h1, hall]; exact beq_self_eq_true _
  | floatV d => rw [show formAgrees F (.floatV d) key =
        (Form.get F (FormElementName "" key) == (leafPairs (.floatV d) key).map Prod.snd)
        from rfl, h1, hall]; exact beq_self_eq_true _
  | boolV b => rw [show formAgrees F (.boolV b) key =
        (Form.get F (FormElementName "" key) == (leafPairs (.boolV b) key).map Prod.snd)
        from rfl, h1, hall]; exact beq_self_eq_true _
  | timeV t => rw [show formAgrees F (.timeV t) key =
        (Form.get F (FormElementName "" key) == (leafPairs (.timeV t) key).map Prod.snd)
        from rfl, h1, hall]; exact beq_self_eq_true _
  | selectV cur opts => rw [show formAgrees F (.selectV cur opts) key =
        (Form.get F (FormElementName "" key) == (leafPairs (.selectV cur opts) key).map Prod.snd)
        from rfl, h1, hall]; exact beq_self_eq_true _
  | radioV cur opts => rw [show formAgrees F (.radioV cur opts) key =
        (Form.get F (FormElementName "" key) == (leafPairs (.radioV cur opts) key).map Prod.snd)
        from rfl, h1, hall]; exact beq_self_eq_true _
  | boolNumV i => rw [show formAgrees F (.boolNumV i) key =
        (Form.get F (FormElementName "" key) == (leafPairs (.boolNumV i) key).map Prod.snd)
        from rfl, h1, hall]; exact beq_self_eq_true _
  | strListV xs => rw [show formAgrees F (.strListV xs) key =
        (Form.get F (FormElementName "" key) == (leafPairs (.strListV xs) key).map Prod.snd)
        from rfl, h1, hall]; exact beq_self_eq_true _

end Formulate

namespace Formulate

theorem get_restrict_left {F : Form} {a b : Form} {k : String}
    (hres : Form.get F k = Form.get (a ++ b) k)
    (hnb : ∀ p ∈ b, p.1 ≠ k) : Form.get F k = Form.get a k := by
  rw [hres, Form.get_append, Form.get_of_not_mem hnb, List.append_nil]

theorem get_restrict_right {F : Form} {a b : Form} {k : String}
    (hres : Form.get F k = Form.get (a ++ b) k)
    (hna : ∀ p ∈ a, p.1 ≠ k) : Form.get F k = Form.get b k := by
  rw [hres, Form.get_append, Form.get_of_not_mem hna, List.nil_append]

mutual
/-- If `F` returns, under every leaf key of the subtree, exactly what the
subtree's own posted pairs return — and the leaf keys are distinct — then
`F` agrees with the subtree. -/
theorem formAgrees_of (F : Form) (v : Value) (key : String)
    (hnd : (leafKeys v key).Nodup)
    (hres : ∀ k ∈ leafKeys v key, Form.get F k = Form.get (leafPairs v key) k) :
    formAgrees F v key = true := by
  cases v with
  | structV fs =>
    exact formAgreesF_of F fs key hnd hres
  | str s =>
    exact formAgrees_leaf F (.str s) key (fun _ h => by cases h)
      (hres _ (List.mem_singleton.mpr rfl))
  | intV i =>
    exact formAgrees_leaf F (.intV i) key (fun _ h => by cases h)
      (hres _ (List.mem_singleton.mpr rfl))
  | uintV m =>
    exact formAgrees_leaf F (.uintV m) key (fun _ h => by cases h)
      (hres _ (List.mem_singleton.mpr rfl))
  | floatV d =>
    exact formAgrees_leaf F (.floatV d) key (fun _ h => by cases h)
      (hres _ (List.mem_singleton.mpr rfl))
  | boolV b =>
    exact formAgrees_leaf F (.boolV b) key (fun _ h => by cases h)
      (hres _ (List.mem_singleton.mpr rfl))
  | timeV t =>
    exact formAgrees_leaf F (.timeV t) key (fun _ h => by cases h)
      (hres _ (List.mem_singleton.mpr rfl))
  | selectV cur opts =>
    exact formAgrees_leaf F (.selectV cur opts) key (fun _ h => by cases h)
      (hres _ (List.mem_singleton.mpr rfl))
  | radioV cur opts =>
    exact formAgrees_leaf F (.radioV cur opts) key (fun _ h => by cases h)
      (hres _ (List.mem_singleton.mpr rfl))
  | boolNumV i =>
    exact formAgrees_leaf F (.boolNumV i) key (fun _ h => by cases h)
      (hres _ (List.mem_singleton.mpr rfl))
  | strListV xs =>
    exact formAgrees_leaf F (.strListV xs) key (fun _ h => by cases h)
      (hres _ (List.mem_singleton.mpr rfl))
  termination_by structural v
/-- Fieldwise version of `formAgrees_of`. -/
theorem formAgreesF_of (F : Form) (fs : Fields) (key : String)
    (hnd : (leafKeysF fs key).Nodup)
    (hres : ∀ k ∈ leafKeysF fs key, Form.get F k = Form.get (leafPairsF fs key) k) :
    formAgreesF F fs key = true := by
  cases fs with
  | nil => rfl
  | cons n t v rest =>
    rcases List.nodup_append.mp hnd with ⟨hnd1, hnd2, hdisj⟩
    rw [show formAgreesF F (.cons n t v rest) key =
        (formAgrees F v (key ++ fieldSeparator ++ n) && formAgreesF F rest key) from rfl]
    rw [formAgrees_of F v (key ++ fieldSeparator ++ n) hnd1
      (fun k hk =>
        get_restrict_left (hres k (List.mem_append.mpr (.inl hk)))
          (fun p hp he =>
            hdisj hk (he ▸ leafPairsF_sub_keys rest key p hp)))]
    rw [formAgreesF_of F rest key hnd2
      (fun k hk =>
        get_restrict_right (hres k (List.mem_append.mpr (.inr hk)))
          (fun p hp he =>
            hdisj (he ▸ leafPairs_sub_keys v (key ++ fieldSeparator ++ n) p hp) hk))]
    rfl
  termination_by structural fs
end

end Formulate

namespace Formulate

theorem GoTime.eta_sec_zero {t : GoTime} (h : t.sec = 0) : ({ t with sec := 0 } : GoTime) = t := by
  obtain ⟨y, mo, d, hh, mi, s⟩ := t
  simp at h
  rw [h]

theorem decode_leaf_roundtrip (h : HTTPDecoder) (v : Value) (key : String) (st : DecoderSt)
    (hns : ∀ fs2, v ≠ .structV fs2)
    (hok : rtOk v key = true)
    (hagree : formAgrees h.form v key = true) :
    h.decode v key [] st = .ok (v, st) := by
  cases v with
  | structV fs => exact absurd rfl (hns fs)
  | boolNumV i => simp [rtOk] at hok
  | strListV xs => simp [rtOk] at hok
  | str s =>
    have hsplit : 2 < (strSplit key '.').length := by
      simpa [rtOk] using hok
    have hget : h.getFormValues key = [s] := by
      rw [HTTPDecoder.getFormValues, ← FormElementName_empty key hsplit]
      exact eq_of_beq hagree
    simp [HTTPDecoder.decode, hget, setIfPassed_nil]
  | intV i =>
    simp only [rtOk, Bool.and_eq_true, decide_eq_true_eq] at hok
    rcases hok with ⟨⟨hsplit, h1⟩, h2⟩
    have hget : h.getFormValues key = [intRepr i] := by
      rw [HTTPDecoder.getFormValues, ← FormElementName_empty key hsplit]
      exact eq_of_beq hagree
    simp only [HTTPDecoder.decode, hget]
    rw [if_neg (intRepr_ne_empty i), parseGoInt_intRepr h1 h2]
    exact setIfPassed_nil h key _ st _ _
  | uintV m =>
    simp only [rtOk, Bool.and_eq_true, decide_eq_true_eq] at hok
    rcases hok with ⟨hsplit, h1⟩
    have hget : h.getFormValues key = [natRepr m] := by
      rw [HTTPDecoder.getFormValues, ← FormElementName_empty key hsplit]
      exact eq_of_beq hagree
    simp only [HTTPDecoder.decode, hget]
    rw [if_neg (natRepr_ne_empty m), parseGoUint_natRepr h1]
    exact setIfPassed_nil h key _ st _ _
  | floatV d =>
    have hsplit : 2 < (strSplit key '.').length := by
      simpa [rtOk] using hok
    have hget : h.getFormValues key = [formatDec d] := by
      rw [HTTPDecoder.getFormValues, ← FormElementName_empty key hsplit]
      exact eq_of_beq hagree
    simp only [HTTPDecoder.decode, hget]
    rw [if_neg (formatDec_ne_empty d), parseGoFloat_formatDec]
    exact setIfPassed_nil h key _ st _ _
  | boolV b =>
    have hsplit : 2 < (strSplit key '.').length := by
      simpa [rtOk] using hok
    cases b with
    | true =>
      have hget : h.getFormValues key = ["on"] := by
        rw [HTTPDecoder.getFormValues, ← FormElementName_empty key hsplit]
        exact eq_of_beq hagree
      simp [HTTPDecoder.decode, hget]
    | false =>
      have hget : h.getFormValues key = [] := by
        rw [HTTPDecoder.getFormValues, ← FormElementName_empty key hsplit]
        exact eq_of_beq hagree
      simp [HTTPDecoder.decode, hget]
  | timeV t =>
    simp only [rtOk, Bool.and_eq_true, decide_eq_true_eq, beq_iff_eq] at hok
    rcases hok with ⟨⟨hsplit, hvalid⟩, hsec⟩
    have hget : h.getFormValues key = [formatGoTime t] := by
      rw [HTTPDecoder.getFormValues, ← FormElementName_empty key hsplit]
      exact eq_of_beq hagree
    simp only [HTTPDecoder.decode, hget]
    rw [parseGoTime_formatGoTime t hvalid, GoTime.eta_sec_zero hsec]
    exact setIfPassed_nil h key _ st _ _
  | selectV cur opts =>
    have hsplit : 2 < (strSplit key '.').length := by
      simpa [rtOk] using hok
    by_cases hm : cur ∈ opts
    · have hget : h.getFormValues key = [cur] := by
        rw [HTTPDecoder.getFormValues, ← FormElementName_empty key hsplit]
        have := eq_of_beq hagree
        simpa [leafPairs, hm] using this
      simp [HTTPDecoder.decode, hget, setIfPassed_nil]
    · have hget : h.getFormValues key = [] := by
        rw [HTTPDecoder.getFormValues, ← FormElementName_empty key hsplit]
        have := eq_of_beq hagree
        simpa [leafPairs, hm] using this
      simp [HTTPDecoder.decode, hget]
  | radioV cur opts =>
    have hsplit : 2 < (strSplit key '.').length := by
      simpa [rtOk] using hok
    have hget : h.getFormValues key = opts.filter fun o => o == cur := by
      rw [HTTPDecoder.getFormValues, ← FormElementName_empty key hsplit]
      have := eq_of_beq hagree
      simpa [leafPairs, List.map_map, Function.comp] using this
    rcases hl : opts.filter (fun o => o == cur) with _ | ⟨o, tail⟩
    · rw [hl] at hget
      simp [HTTPDecoder.decode, hget]
    · rw [hl] at hget
      have ho : o = cur := by
        have hmem : o ∈ opts.filter fun o => o == cur := by rw [hl]; exact List.mem_cons_self o tail
        simpa using List.of_mem_filter hmem
      simp only [HTTPDecoder.decode, hget]
      rw [ho]
      exact setIfPassed_nil h key _ st _ _

end Formulate

namespace Formulate

mutual
/-- Decoding a round-trippable subtree from a form that agrees with the
subtree's posted pairs reproduces the subtree exactly and leaves the
decode state untouched. -/
theorem decode_roundtrip (h : HTTPDecoder) (v : Value) (key : String) (st : DecoderSt)
    (hvals : h.validators.lookup "" = none)
    (hconds : h.showConditions.lookup "" = none)
    (hok : rtOk v key = true)
    (hagree : formAgrees h.form v key = true) :
    h.decode v key [] st = .ok (v, st) := by
  cases v with
  | structV fs =>
    rw [show h.decode (.structV fs) key [] st =
        (match h.decodeFields fs key st with
         | .error e => .error e
         | .ok (fs', st') => .ok (.structV fs', st')) from rfl]
    rw [decodeFields_roundtrip h fs key st hvals hconds hok hagree]
  | str s =>
    exact decode_leaf_roundtrip h (.str s) key st (fun _ hh => by cases hh) hok hagree
  | intV i =>
    exact decode_leaf_roundtrip h (.intV i) key st (fun _ hh => by cases hh) hok hagree
  | uintV m =>
    exact decode_leaf_roundtrip h (.uintV m) key st (fun _ hh => by cases hh) hok hagree
  | floatV d =>
    exact decode_leaf_roundtrip h (.floatV d) key st (fun _ hh => by cases hh) hok hagree
  | boolV b =>
    exact decode_leaf_roundtrip h (.boolV b) key st (fun _ hh => by cases hh) hok hagree
  | timeV t =>
    exact decode_leaf_roundtrip h (.timeV t) key st (fun _ hh => by cases hh) hok hagree
  | selectV cur opts =>
    exact decode_leaf_roundtrip h (.selectV cur opts) key st (fun _ hh => by cases hh) hok hagree
  | radioV cur opts =>
    exact decode_leaf_roundtrip h (.radioV cur opts) key st (fun _ hh => by cases hh) hok hagree
  | boolNumV i =>
    exact decode_leaf_roundtrip h (.boolNumV i) key st (fun _ hh => by cases hh) hok hagree
  | strListV xs =>
    exact decode_leaf_roundtrip h (.strListV xs) key st (fun _ hh => by cases hh) hok hagree
  termination_by structural v
/-- Fieldwise version of `decode_roundtrip`. -/
theorem decodeFields_roundtrip (h : HTTPDecoder) (fs : Fields) (key : String) (st : DecoderSt)
    (hvals : h.validators.lookup "" = none)
    (hconds : h.showConditions.lookup "" = none)
    (hok : rtOkF fs key = true)
    (hagree : formAgreesF h.form fs key = true) :
    h.decodeFields fs key st = .ok (fs, st) := by
  cases fs with
  | nil => rfl
  | cons n t v rest =>
    rcases rtOkF_cons hok with ⟨ht, hv, hrest⟩
    have hags : formAgrees h.form v (key ++ fieldSeparator ++ n) = true ∧
        formAgreesF h.form rest key = true :=
      Bool.and_eq_true _ _ ▸
        (show (formAgrees h.form v (key ++ fieldSeparator ++ n) &&
               formAgreesF h.form rest key) = true from hagree)
    rw [show h.decodeFields (.cons n t v rest) key st =
        (if (StructField.Hidden (α := DynVal) ⟨n, t, []⟩ h.showConditions) then
           match h.decodeFields rest key st with
           | .error e => .error e
           | .ok (rest', st') => .ok (.cons n t v rest', st')
         else
           match h.decode v (key ++ fieldSeparator ++ n)
               (h.getValidators (StructField.Validators (α := DynVal) ⟨n, t, []⟩)) st with
           | .error e => .error e
           | .ok (v', st') =>
             match h.decodeFields rest key st' with
             | .error e => .error e
             | .ok (rest', st'') => .ok (.cons n t v' rest', st'')) from rfl]
    rw [ht]
    rw [hidden_default n [] h.showConditions hconds]
    rw [if_neg (fun hh => Bool.false_ne_true hh)]
    rw [getValidators_default h n hvals]
    rw [decode_roundtrip h v (key ++ fieldSeparator ++ n) st hvals hconds hv hags.1]
    dsimp only
    rw [decodeFields_roundtrip h rest key st hvals hconds hrest hags.2]
  termination_by structural fs
end

end Formulate

namespace Formulate

/-- C1: amended round trip.  Encoding a record whose leaves are supported
primitive kinds in representable range (64-bit integers, calendar-valid
times at minute resolution, i.e. zero seconds), with default tags,
pairwise-distinct stripped element names, no element-name prefix, and no
show condition or validator registered under the default (empty) tag,
then posting back exactly what a browser would submit for the rendered
controls, decodes to the identical record with no validation errors. -/
theorem claim_C1_encode_decode_round_trip (conds : ShowConditions)
    (reg : List (String × ValidatorFun)) (flag : Bool) (fs : Fields) (tn : String)
    (hconds : conds.lookup "" = none) (hreg : reg.lookup "" = none)
    (hok : rtOk (.structV fs) tn = true)
    (hnd : (leafKeys (.structV fs) tn).Nodup) :
    ∃ ns, (HTMLEncoder.Encode ⟨conds, ""⟩ {} (.structV fs) tn).1 = .ok ns ∧
      HTTPDecoder.Decode ⟨pairsOfList ns, conds, reg, flag⟩ {} (.structV fs) tn =
        .success (.structV fs) {} := by
  refine ⟨HTMLEncoder.recurse ⟨conds, ""⟩ {} (.structV fs) tn {}, rfl, ?_⟩
  have hpairs : pairsOfList (HTMLEncoder.recurse ⟨conds, ""⟩ {} (.structV fs) tn {}) =
      leafPairs (.structV fs) tn :=
    recurse_pairs ⟨conds, ""⟩ {} (.structV fs) tn "" [] rfl hconds hok
  have hagree : formAgrees
      (pairsOfList (HTMLEncoder.recurse ⟨conds, ""⟩ {} (.structV fs) tn {}))
      (.structV fs) tn = true :=
    formAgrees_of _ (.structV fs) tn hnd (fun k _ => by rw [hpairs])
  have hdec := decode_roundtrip
    ⟨pairsOfList (HTMLEncoder.recurse ⟨conds, ""⟩ {} (.structV fs) tn {}), conds, reg, flag⟩
    (.structV fs) tn ⟨0, {}⟩ hreg hconds hok hagree
  rw [show HTTPDecoder.Decode
      ⟨pairsOfList (HTMLEncoder.recurse ⟨conds, ""⟩ {} (.structV fs) tn {}), conds, reg, flag⟩
      {} (.structV fs) tn =
      (match (⟨pairsOfList (HTMLEncoder.recurse ⟨conds, ""⟩ {} (.structV fs) tn {}),
          conds, reg, flag⟩ : HTTPDecoder).decode (.structV fs) tn [] ⟨0, {}⟩ with
       | .error f => DecodeOutcome.fatal f
       | .ok (rec', st) =>
         if st.numValidationErrors > 0 then .failedValidation rec' (st.store.SetFormValue rec')
         else .success rec' st.store) from rfl]
  rw [hdec]
  rfl

end Formulate


namespace Formulate

set_option maxRecDepth 10000 in
/-- C1 counterexample: the literal spec sentence fails for a record holding
a time with nonzero seconds — the rendered `datetime-local` value has
minute resolution, so the posted form decodes to the record with the
seconds truncated, not to the original record. -/
theorem claim_C1_counterexample :
    HTTPDecoder.Decode
        ⟨pairsOfList ((HTMLEncoder.Encode ⟨[], ""⟩ {}
            (.structV (.cons "When" {} (.timeV ⟨2024, 5, 28, 15, 30, 45⟩) .nil))
            "main.Profile").1.toOption.getD []),
          [], [], false⟩ {}
        (.structV (.cons "When" {} (.timeV ⟨2024, 5, 28, 15, 30, 45⟩) .nil)) "main.Profile" =
      .success (.structV (.cons "When" {} (.timeV ⟨2024, 5, 28, 15, 30, 0⟩) .nil)) {} ∧
    Value.structV (.cons "When" {} (.timeV ⟨2024, 5, 28, 15, 30, 0⟩) .nil) ≠
      .structV (.cons "When" {} (.timeV ⟨2024, 5, 28, 15, 30, 45⟩) .nil) := by
  exact ⟨by decide, by decide⟩

set_option maxRecDepth 20000 in
/-- Witness for C1 at a concrete record covering every supported leaf
kind, including a nested struct. -/
theorem claim_C1_encode_decode_round_trip_witness :
    ∃ ns, (HTMLEncoder.Encode ⟨[], ""⟩ {}
        (.structV (.cons "Name" {} (.str "Ada")
          (.cons "Age" {} (.intV (-36))
          (.cons "Count" {} (.uintV 7)
          (.cons "Score" {} (.floatV ⟨25, 1⟩)
          (.cons "Admin" {} (.boolV true)
          (.cons "When" {} (.timeV ⟨2024, 5, 28, 15, 30, 0⟩)
          (.cons "Color" {} (.selectV "red" ["red", "green"])
          (.cons "Size" {} (.radioV "big" ["big", "small"])
          (.cons "Job" {} (.structV (.cons "Title" {} (.str "dev") .nil))
          .nil))))))))))
        "main.Profile").1 = .ok ns ∧
      HTTPDecoder.Decode ⟨pairsOfList ns, [], [], false⟩ {}
        (.structV (.cons "Name" {} (.str "Ada")
          (.cons "Age" {} (.intV (-36))
          (.cons "Count" {} (.uintV 7)
          (.cons "Score" {} (.floatV ⟨25, 1⟩)
          (.cons "Admin" {} (.boolV true)
          (.cons "When" {} (.timeV ⟨2024, 5, 28, 15, 30, 0⟩)
          (.cons "Color" {} (.selectV "red" ["red", "green"])
          (.cons "Size" {} (.radioV "big" ["big", "small"])
          (.cons "Job" {} (.structV (.cons "Title" {} (.str "dev") .nil))
          .nil))))))))))
        "main.Profile" =
        .success (.structV (.cons "Name" {} (.str "Ada")
          (.cons "Age" {} (.intV (-36))
          (.cons "Count" {} (.uintV 7)
          (.cons "Score" {} (.floatV ⟨25, 1⟩)
          (.cons "Admin" {} (.boolV true)
          (.cons "When" {} (.timeV ⟨2024, 5, 28, 15, 30, 0⟩)
          (.cons "Color" {} (.selectV "red" ["red", "green"])
          (.cons "Size" {} (.radioV "big" ["big", "small"])
          (.cons "Job" {} (.structV (.cons "Title" {} (.str "dev") .nil))
          .nil)))))))))) {} :=
  claim_C1_encode_decode_round_trip [] [] false
    (.cons "Name" {} (.str "Ada")
      (.cons "Age" {} (.intV (-36))
      (.cons "Count" {} (.uintV 7)
      (.cons "Score" {} (.floatV ⟨25, 1⟩)
      (.cons "Admin" {} (.boolV true)
      (.cons "When" {} (.timeV ⟨2024, 5, 28, 15, 30, 0⟩)
      (.cons "Color" {} (.selectV "red" ["red", "green"])
      (.cons "Size" {} (.radioV "big" ["big", "small"])
      (.cons "Job" {} (.structV (.cons "Title" {} (.str "dev") .nil))
      .nil)))))))))
    "main.Profile" rfl rfl (by decide) (by decide)

end Formulate
